import Mathlib

/-!
Verification development for the slshop Go client library.

This file gives a shallow embedding of the resilient request-execution core
of the library (circuit breaker, backoff / Retry-After calculation, the
`Client.Do` retry loop, query-string building, and the token manager with
its singleflight refresh protocol), and proves or refutes the specified
properties about it.

Modelling conventions:
* Go `time.Duration` and `time.Time` values are `Int` nanoseconds; the
  current clock reading is passed explicitly as a `now : Int` parameter to
  every function that calls `time.Now()` / `time.Since` in the source.
* Go `int`/`int64` arithmetic is `Int` arithmetic; where overflow matters
  the two's-complement wrap-around is made explicit via `wrap64`.
* Randomness (`rand.Int63n`) is modelled by an explicit draw parameter
  constrained to the interval the source draws from.
* External collaborators (the HTTP transport, `http.ParseTime`, the JSON
  decoder, the token store and the refresh callback) are oracle parameters.
-/

/-! ### Circuit breaker (circuit_breaker.go)

Direct translation of the three-state breaker: `cbState`, the
`CircuitBreaker` record, `newCircuitBreaker`, `Allow`, `RecordSuccess`,
`RecordFailure` and `State`.  The mutex disappears in the embedding (each
operation is one atomic state transition, exactly the lock-protected
region of the source); `time.Now()` becomes the `now` parameter. -/

/-- State of a circuit breaker (Go `cbState`). -/
inductive cbState where
  | cbClosed
  | cbOpen
  | cbHalfOpen
deriving DecidableEq, Repr

/-- The circuit breaker record.  `lastFailTime` is nanoseconds; the Go zero
`time.Time` of a fresh breaker is modelled as `0` (it is never consulted
before the first recorded failure, since the state starts `cbClosed`). -/
structure CircuitBreaker where
  threshold : Int
  cooldown : Int
  state : cbState
  failures : Int
  lastFailTime : Int
  probing : Bool
deriving DecidableEq, Repr

/-- Structured form of the advisory errors `Allow` can return (the source
formats them into strings; the message text is not modelled). -/
inductive CBError where
  | circuitOpen (remaining : Int)
  | probeInProgress
deriving DecidableEq, Repr

/-- Go `newCircuitBreaker(threshold, cooldown)`. -/
def newCircuitBreaker (threshold cooldown : Int) : CircuitBreaker :=
  { threshold := threshold, cooldown := cooldown, state := .cbClosed,
    failures := 0, lastFailTime := 0, probing := false }

/-- Go `(*CircuitBreaker).Allow()`: returns the advisory error (if any)
together with the updated breaker state. -/
def CircuitBreaker.Allow (cb : CircuitBreaker) (now : Int) :
    Option CBError × CircuitBreaker :=
  match cb.state with
  | .cbClosed => (none, cb)
  | .cbOpen =>
      if now - cb.lastFailTime ≥ cb.cooldown then
        (none, { cb with state := .cbHalfOpen, probing := true })
      else
        (some (.circuitOpen (cb.cooldown - (now - cb.lastFailTime))), cb)
  | .cbHalfOpen =>
      if cb.probing then (some .probeInProgress, cb)
      else (none, { cb with probing := true })

/-- Go `(*CircuitBreaker).RecordSuccess()`. -/
def CircuitBreaker.RecordSuccess (cb : CircuitBreaker) : CircuitBreaker :=
  { cb with failures := 0, probing := false, state := .cbClosed }

/-- Go `(*CircuitBreaker).RecordFailure()`. -/
def CircuitBreaker.RecordFailure (cb : CircuitBreaker) (now : Int) : CircuitBreaker :=
  let cb := { cb with probing := false, lastFailTime := now }
  match cb.state with
  | .cbClosed =>
      let f := cb.failures + 1
      if f ≥ cb.threshold then { cb with failures := f, state := .cbOpen }
      else { cb with failures := f }
  | .cbHalfOpen => { cb with state := .cbOpen }
  | .cbOpen => cb

/-- Go `(*CircuitBreaker).State()`. -/
def CircuitBreaker.State (cb : CircuitBreaker) : String :=
  match cb.state with
  | .cbClosed => "closed"
  | .cbOpen => "open"
  | .cbHalfOpen => "half-open"

/-! ### Backoff calculation (http.go `backoffDuration`)

```go
backoff := base * time.Duration(1<<uint(attempt))
if backoff > maxBackoff { backoff = maxBackoff }
jitter := time.Duration(rand.Int63n(int64(backoff/2))) - backoff/4
return backoff + jitter
```

`time.Duration` is `int64`; the multiplication and the shift wrap around
(Go signed integers wrap on overflow, and a shift count `≥ 64` yields 0 -
both captured by `wrap64`).  The random draw `rand.Int63n(backoff/2)` is
the explicit parameter `jitterDraw`, constrained by the callers of the
theorems to `0 ≤ jitterDraw < backoff.tdiv 2` (the range of `Int63n`;
`Int63n` panics when its argument is not positive, so that constraint is
also the definedness condition of the call).  Go division on `int64`
truncates toward zero, i.e. `Int.tdiv`. -/

/-- Cap on the exponential backoff: 30 seconds in nanoseconds. -/
def maxBackoff : Int := 30 * 1000000000

/-- Two's-complement wrap-around of `int64` arithmetic. -/
def wrap64 (x : Int) : Int := (x + 2 ^ 63) % 2 ^ 64 - 2 ^ 63

/-- The capped exponential value `min(base * 2^attempt, 30s)` as the int64
program computes it (wrap-around included). -/
def backoffCapped (attempt : Nat) (base : Int) : Int :=
  let b := wrap64 (base * wrap64 (2 ^ attempt))
  if b > maxBackoff then maxBackoff else b

/-- Go `backoffDuration(attempt, base)` with the jitter draw explicit. -/
def backoffDuration (attempt : Nat) (base jitterDraw : Int) : Int :=
  let b := backoffCapped attempt base
  b + (jitterDraw - Int.tdiv b 4)

/-! ### Retry-After parsing (http.go `parseRetryAfter`)

```go
if header == "" { return 0 }
if seconds, err := strconv.ParseFloat(header, 64); err == nil {
    return time.Duration(seconds * float64(time.Second))
}
if t, err := http.ParseTime(header); err == nil {
    d := time.Until(t)
    if d > 0 { return d }
}
return 0
```

`strconv.ParseFloat` is modelled for plain decimal inputs (optional sign,
digits, optional fractional part) by `parseFloatNs`, which computes
`seconds * 1e9` exactly and truncates toward zero - the same value the
float64 computation produces on the inputs the specification enumerates.
`http.ParseTime` is an oracle `parseTime : String → Option Int` returning
the parsed absolute time in nanoseconds; `time.Until(t)` is `t - now`
(the saturation of `time.Time.Sub` at ±2^63-1 is not modelled; it never
changes the sign of the result). -/

/-- Numeric value of a list of decimal digit characters. -/
def digitsToNat (cs : List Char) : Nat :=
  cs.foldl (fun a c => 10 * a + (c.toNat - 48)) 0

/-- Split a character list at the first decimal point; fails if a second
decimal point is present. -/
def splitFrac (cs : List Char) : Option (List Char × List Char) :=
  let intPart := cs.takeWhile (· ≠ '.')
  match cs.dropWhile (· ≠ '.') with
  | [] => some (intPart, [])
  | _ :: rest => if rest.contains '.' then none else some (intPart, rest)

/-- Model of `strconv.ParseFloat(header, 64)` followed by
`time.Duration(seconds * float64(time.Second))`, for plain decimal input
(sign, digits, optional fraction).  Returns the duration in nanoseconds,
or `none` when `ParseFloat` reports an error. -/
def parseFloatNs (s : String) : Option Int :=
  let cs := s.toList
  let signAndRest : Bool × List Char :=
    match cs with
    | '-' :: rest => (true, rest)
    | '+' :: rest => (false, rest)
    | rest => (false, rest)
  let neg := signAndRest.1
  match splitFrac signAndRest.2 with
  | none => none
  | some (intCs, fracCs) =>
      if intCs.all (·.isDigit) ∧ fracCs.all (·.isDigit) ∧
          (intCs ≠ [] ∨ fracCs ≠ []) then
        let num := (digitsToNat intCs * 10 ^ fracCs.length + digitsToNat fracCs)
            * 1000000000
        let mag : Nat := num / 10 ^ fracCs.length
        some (if neg then -(mag : Int) else (mag : Int))
      else none

/-- Go `parseRetryAfter(header)`, with the clock and `http.ParseTime`
explicit. -/
def parseRetryAfter (now : Int) (parseTime : String → Option Int)
    (header : String) : Int :=
  if header = "" then 0
  else
    match parseFloatNs header with
    | some ns => ns
    | none =>
        match parseTime header with
        | some t => if t - now > 0 then t - now else 0
        | none => 0


/-! ### The `Client.Do` retry loop (http.go)

The loop is modelled as a function of
* the configured retry budget (`maxRetries`, Go default 0),
* the optional circuit breaker (`none` when the client has none),
* the buffered request body (`none` when `req.Body == nil`; the source
  reads and buffers the body exactly once before the loop and rewinds it
  on every retry, so the bytes handed to the transport at each attempt
  are a pure function of that buffer),
* a transport oracle `out : Nat → Outcome` giving the outcome of the
  `attempt`-th HTTP call,
* a decode oracle `decodeOk` (whether `json.Unmarshal` succeeds) and the
  flag `hasResult` (whether the caller supplied a decode target).

The trace records everything externally observable: how many transport
calls happened, which body bytes each one carried, the final outcome, the
final breaker state, and whether decoding was attempted (i.e. whether the
caller's target could have been written to).

Circuit-breaker integration: the v0.2.0 tree wires the breaker into this
loop; that revision of http.go is absent here (only its tests, the
CHANGELOG entry and the breaker itself remain), so the three hook points
are modelled from the spec: `Allow()` is consulted before each attempt
(including the first) and its error is returned with no network I/O when
it rejects; `RecordFailure()` runs on transport errors and on 429/503
responses; `RecordSuccess()` runs only for 2xx final responses.  With
`cb? = none` the function is exactly the http.go present in the tree.

Backoff sleeps between attempts do not change the trace and context
cancellation during them only truncates the loop; neither is modelled
(no claim in scope mentions cancellation). -/

/-- Outcome of a single transport call (`c.httpClient.Do`). -/
inductive Outcome where
  | transportError
  | response (status : Int) (body : List Nat)
deriving Repr

/-- Result of one `Do` invocation, as the caller observes it. -/
inductive DoResult where
  | circuitOpen (e : CBError)
  | transportFailed
  | apiError (status : Int) (body : List Nat)
  | decodeError (status : Int) (body : List Nat)
  | ok (status : Int) (body : List Nat)
deriving DecidableEq, Repr

/-- Observable trace of one `Do` invocation. -/
structure DoTrace where
  attempts : Nat
  sentBodies : List (Option (List Nat))
  result : DoResult
  cb : Option CircuitBreaker
  decodeAttempted : Bool
deriving Repr

/-- Consult the optional breaker before an attempt (spec step 2). -/
def allowGate (cb? : Option CircuitBreaker) (now : Int) :
    Option CBError × Option CircuitBreaker :=
  match cb? with
  | none => (none, none)
  | some cb => let r := cb.Allow now; (r.1, some r.2)

/-- Notify the optional breaker of a failed attempt. -/
def cbFail (cb? : Option CircuitBreaker) (now : Int) : Option CircuitBreaker :=
  cb?.map (·.RecordFailure now)

/-- Final processing after the loop breaks with a response: breaker
success notification (2xx only), bounded body read, error construction or
decoding (`result != nil && len(body) > 0`). -/
def finishResponse (hasResult : Bool) (decodeOk : List Nat → Bool)
    (cb? : Option CircuitBreaker) (status : Int) (body : List Nat) :
    DoResult × Option CircuitBreaker × Bool :=
  let cb2 := if 200 ≤ status ∧ status < 300 then cb?.map (·.RecordSuccess) else cb?
  if status < 200 ∨ 300 ≤ status then (.apiError status body, cb2, false)
  else if hasResult ∧ body ≠ [] then
    if decodeOk body then (.ok status body, cb2, true)
    else (.decodeError status body, cb2, true)
  else (.ok status body, cb2, false)

/-- The body of the `for attempt := 0; attempt <= maxRetries` loop.  The
first argument is `remaining = maxRetries - attempt`, the number of
retries still available after the current attempt (`attempt < maxRetries`
in the source is `remaining > 0` here); the second is the current attempt
index. -/
def doLoop (hasResult : Bool) (decodeOk : List Nat → Bool)
    (bodyBytes : Option (List Nat)) (out : Nat → Outcome) (now : Int) :
    Nat → Nat → Option CircuitBreaker → DoTrace
  | 0, attempt, cb? =>
    match allowGate cb? now with
    | (some e, cb1) =>
        { attempts := 0, sentBodies := [], result := .circuitOpen e,
          cb := cb1, decodeAttempted := false }
    | (none, cb1) =>
      match out attempt with
      | .transportError =>
          { attempts := 1, sentBodies := [bodyBytes], result := .transportFailed,
            cb := cbFail cb1 now, decodeAttempted := false }
      | .response status body =>
          if status = 429 ∨ status = 503 then
            let f := finishResponse hasResult decodeOk (cbFail cb1 now) status body
            { attempts := 1, sentBodies := [bodyBytes], result := f.1,
              cb := f.2.1, decodeAttempted := f.2.2 }
          else
            let f := finishResponse hasResult decodeOk cb1 status body
            { attempts := 1, sentBodies := [bodyBytes], result := f.1,
              cb := f.2.1, decodeAttempted := f.2.2 }
  | r + 1, attempt, cb? =>
    match allowGate cb? now with
    | (some e, cb1) =>
        { attempts := 0, sentBodies := [], result := .circuitOpen e,
          cb := cb1, decodeAttempted := false }
    | (none, cb1) =>
      match out attempt with
      | .transportError =>
          let t := doLoop hasResult decodeOk bodyBytes out now r (attempt + 1)
            (cbFail cb1 now)
          { t with attempts := t.attempts + 1, sentBodies := bodyBytes :: t.sentBodies }
      | .response status body =>
          if status = 429 ∨ status = 503 then
            let t := doLoop hasResult decodeOk bodyBytes out now r (attempt + 1)
              (cbFail cb1 now)
            { t with attempts := t.attempts + 1,
                     sentBodies := bodyBytes :: t.sentBodies }
          else
            let f := finishResponse hasResult decodeOk cb1 status body
            { attempts := 1, sentBodies := [bodyBytes], result := f.1,
              cb := f.2.1, decodeAttempted := f.2.2 }

/-- One `Client.Do` invocation: the loop entered at attempt 0 with the
full retry budget. -/
def clientDo (maxRetries : Nat) (cb? : Option CircuitBreaker)
    (hasResult : Bool) (decodeOk : List Nat → Bool)
    (bodyBytes : Option (List Nat)) (out : Nat → Outcome) (now : Int) : DoTrace :=
  doLoop hasResult decodeOk bodyBytes out now maxRetries 0 cb?


/-! ### Backoff bounds (claim C5) -/

/-- Helper: `wrap64` is the identity on values representable in int64. -/
lemma wrap64_eq_self {x : Int} (h1 : -(2 ^ 63) ≤ x) (h2 : x < 2 ^ 63) :
    wrap64 x = x := by
  unfold wrap64
  rw [Int.emod_eq_of_lt (by omega) (by omega)]
  omega

/-- Helper: without int64 overflow the capped value is the mathematical
`min(base * 2^attempt, 30s)`. -/
lemma backoffCapped_eq_min {attempt : Nat} {base : Int} (hb : 0 < base)
    (ha : attempt < 10) (hov : base * 2 ^ attempt < 2 ^ 63) :
    backoffCapped attempt base = min (base * 2 ^ attempt) maxBackoff := by
  have hp : (2 : Int) ^ attempt < 2 ^ 63 := by
    calc (2 : Int) ^ attempt ≤ 2 ^ 9 := by
          exact pow_le_pow_right₀ (by norm_num) (by omega)
      _ < 2 ^ 63 := by norm_num
  have hppos : (0 : Int) < 2 ^ attempt := by positivity
  have hmulpos : (0 : Int) < base * 2 ^ attempt := by positivity
  unfold backoffCapped
  rw [wrap64_eq_self (by omega) hp, wrap64_eq_self (by omega) hov]
  simp only [maxBackoff]
  split <;> omega

/-- Claim C5 is false on the code as stated: quantified over *every*
positive base duration, the int64 multiplication `base * 2^attempt` can
wrap around, bypassing the 30s cap.  At `attempt = 9`,
`base = 2^60 + 1` ns the product wraps to 512 ns, the jitter draw 0 is in
the legal range of `rand.Int63n(backoff/2)`, and the result is 384 ns -
far outside ±25% of `min(base * 2^9, 30s) = 30s`. -/
theorem backoffDuration_wraps_outside_band :
    0 < ((2 : Int) ^ 60 + 1) ∧
    0 ≤ (0 : Int) ∧ 0 < Int.tdiv (backoffCapped 9 (2 ^ 60 + 1)) 2 ∧
    backoffDuration 9 (2 ^ 60 + 1) 0 = 384 ∧
    min ((2 ^ 60 + 1) * 2 ^ 9) maxBackoff = maxBackoff ∧
    ¬(3 * min ((2 ^ 60 + 1) * 2 ^ 9 : Int) maxBackoff
        ≤ 4 * backoffDuration 9 (2 ^ 60 + 1) 0 ∧
      4 * backoffDuration 9 (2 ^ 60 + 1) 0
        ≤ 5 * min ((2 ^ 60 + 1) * 2 ^ 9 : Int) maxBackoff) := by
  refine ⟨by norm_num, le_refl 0, ?_, ?_, ?_, ?_⟩ <;> decide

/-- Claim C5 (amended: the int64 product `base * 2^attempt` must not
overflow - the counterexample above forces that restriction): for every
attempt `a < 10`, positive base, and every value `j` of the jitter draw
`rand.Int63n(backoff/2)`, the returned duration lies within ±25% of
`min(base * 2^a, 30s)`: the exponential value is capped at 30s first and
the jitter is applied to the capped value. -/
theorem backoffDuration_within_band (attempt : Nat) (base j : Int)
    (hb : 0 < base) (ha : attempt < 10)
    (hov : base * 2 ^ attempt < 2 ^ 63)
    (hj0 : 0 ≤ j) (hj1 : j < Int.tdiv (backoffCapped attempt base) 2) :
    3 * min (base * 2 ^ attempt) maxBackoff
        ≤ 4 * backoffDuration attempt base j ∧
    4 * backoffDuration attempt base j
        ≤ 5 * min (base * 2 ^ attempt) maxBackoff := by
  have hcap := backoffCapped_eq_min hb ha hov
  set b := backoffCapped attempt base with hbdef
  have hbpos : 0 < b := by
    have : (0 : Int) < base * 2 ^ attempt := by positivity
    rw [hcap]
    simp only [maxBackoff, lt_min_iff]
    omega
  have h2 : 2 * Int.tdiv b 2 + Int.tmod b 2 = b := by
    have := Int.tdiv_add_tmod b 2; linarith
  have h4 : 4 * Int.tdiv b 4 + Int.tmod b 4 = b := by
    have := Int.tdiv_add_tmod b 4; linarith
  have hm2a : 0 ≤ Int.tmod b 2 := Int.tmod_nonneg 2 (le_of_lt hbpos)
  have hm2b : Int.tmod b 2 < 2 := Int.tmod_lt_of_pos b (by norm_num)
  have hm4a : 0 ≤ Int.tmod b 4 := Int.tmod_nonneg 4 (le_of_lt hbpos)
  have hm4b : Int.tmod b 4 < 4 := Int.tmod_lt_of_pos b (by norm_num)
  have hdo : backoffDuration attempt base j = b + (j - Int.tdiv b 4) := rfl
  rw [← hcap, hdo]
  constructor <;> omega

/-- Witness for `backoffDuration_within_band`: attempt 2, base 1s,
draw 1e9 (legal: `Int63n(2e9)`), result 3e9 ns, inside `[3s, 5s]`. -/
theorem backoffDuration_within_band_witness :
    3 * min ((1000000000 : Int) * 2 ^ 2) maxBackoff
        ≤ 4 * backoffDuration 2 1000000000 1000000000 ∧
    4 * backoffDuration 2 1000000000 1000000000
        ≤ 5 * min ((1000000000 : Int) * 2 ^ 2) maxBackoff :=
  backoffDuration_within_band 2 1000000000 1000000000 (by norm_num)
    (by norm_num) (by norm_num) (by norm_num) (by decide)

/-! ### Retry-After parsing (claim C6) -/

/-- Claim C6 is false on the code as stated: the numeric branch of
`parseRetryAfter` never checks the sign, so the header `"-5"` (which
`strconv.ParseFloat` parses successfully) yields a *negative* duration of
-5 seconds, not 0. -/
theorem parseRetryAfter_negative_on_negative_header :
    parseRetryAfter 0 (fun _ => none) "-5" = -5000000000 ∧
    parseRetryAfter 0 (fun _ => none) "-5" < 0 := by
  constructor <;> decide

/-- Claim C6 (amended: inputs that `ParseFloat` accepts as a *negative*
number - such as `"-5"`, see the counterexample - are returned as-is and
must be excluded from the non-negativity guarantee): for every clock,
every `http.ParseTime` oracle, and every header string, the result is
non-negative whenever the header does not parse as a negative number; the
empty string, unparsable garbage and past HTTP-dates give 0; `"120"`
gives 120s, `"2.5"` gives 2500ms, and a future HTTP-date gives exactly
the matching positive duration. -/
theorem parseRetryAfter_spec (now : Int) (parseTime : String → Option Int)
    (header : String) :
    (parseFloatNs header = none → 0 ≤ parseRetryAfter now parseTime header) ∧
    (∀ ns : Int, parseFloatNs header = some ns → 0 ≤ ns →
      parseRetryAfter now parseTime header = ns) ∧
    parseRetryAfter now parseTime "" = 0 ∧
    parseRetryAfter now parseTime "120" = 120000000000 ∧
    parseRetryAfter now parseTime "2.5" = 2500000000 ∧
    (parseFloatNs header = none → parseTime header = none →
      parseRetryAfter now parseTime header = 0) ∧
    (∀ t : Int, header ≠ "" → parseFloatNs header = none →
      parseTime header = some t →
      now < t → parseRetryAfter now parseTime header = t - now) ∧
    (∀ t : Int, parseFloatNs header = none → parseTime header = some t →
      t ≤ now → parseRetryAfter now parseTime header = 0) := by
  refine ⟨?_, ?_, rfl, ?_, ?_, ?_, ?_, ?_⟩
  · intro hnum
    unfold parseRetryAfter
    split
    · exact le_refl 0
    · rw [hnum]
      rcases h : parseTime header with _ | t
      · exact le_refl 0
      · dsimp only
        split <;> omega
  · intro ns hnum _
    unfold parseRetryAfter
    have hne : header ≠ "" := by
      intro he
      have h0 : parseFloatNs "" = none := by decide
      rw [he, h0] at hnum
      exact Option.noConfusion hnum
    rw [if_neg hne, hnum]
  · have : parseFloatNs "120" = some 120000000000 := by decide
    unfold parseRetryAfter
    rw [if_neg (by decide), this]
  · have : parseFloatNs "2.5" = some 2500000000 := by decide
    unfold parseRetryAfter
    rw [if_neg (by decide), this]
  · intro hnum hdate
    unfold parseRetryAfter
    split
    · rfl
    · rw [hnum, hdate]
  · intro t hne hnum hdate hfut
    unfold parseRetryAfter
    rw [if_neg hne, hnum, hdate]
    simp only [if_pos (by omega : t - now > 0)]
  · intro t hnum hdate hpast
    unfold parseRetryAfter
    split
    · rfl
    · rw [hnum, hdate]
      simp only [if_neg (by omega : ¬t - now > 0)]

/-- Witness for `parseRetryAfter_spec`: concrete checks of the guarded
conjuncts at header `"abc"` (unparsable) and a future/past date oracle. -/
theorem parseRetryAfter_spec_witness :
    parseRetryAfter 100 (fun _ => none) "abc" = 0 ∧
    parseRetryAfter 100 (fun s => if s = "d" then some 350 else none) "d" = 250 ∧
    parseRetryAfter 400 (fun s => if s = "d" then some 350 else none) "d" = 0 ∧
    parseRetryAfter 0 (fun _ => none) "120" = 120000000000 := by
  refine ⟨?_, ?_, ?_, ?_⟩
  · exact (parseRetryAfter_spec 100 (fun _ => none) "abc").2.2.2.2.2.1
      (by decide) rfl
  · exact (parseRetryAfter_spec 100 (fun s => if s = "d" then some 350 else none)
      "d").2.2.2.2.2.2.1 350 (by decide) (by decide) rfl (by norm_num)
  · exact (parseRetryAfter_spec 400 (fun s => if s = "d" then some 350 else none)
      "d").2.2.2.2.2.2.2 350 (by decide) rfl (by norm_num)
  · exact (parseRetryAfter_spec 0 (fun _ => none) "120").2.2.2.1

/-! ### Circuit breaker state machine (claim C3) -/

/-- Fold `RecordFailure` over a list of failure times. -/
def cbFailsN (cb : CircuitBreaker) : List Int → CircuitBreaker
  | [] => cb
  | t :: ts => cbFailsN (cb.RecordFailure t) ts

/-- Helper: folding over two lists in sequence. -/
lemma cbFailsN_append (cb : CircuitBreaker) (l1 l2 : List Int) :
    cbFailsN cb (l1 ++ l2) = cbFailsN (cbFailsN cb l1) l2 := by
  induction l1 generalizing cb with
  | nil => rfl
  | cons t ts ih =>
      show cbFailsN (cb.RecordFailure t) (ts ++ l2) = _
      exact ih (cb.RecordFailure t)

/-- Helper: while the accumulated failures stay below the threshold, the
breaker stays closed and just counts. -/
lemma cbFailsN_closed (tr c : Int) :
    ∀ (ts : List Int) (f l : Int) (p : Bool), f + ts.length < tr →
    cbFailsN ⟨tr, c, .cbClosed, f, l, p⟩ ts =
      ⟨tr, c, .cbClosed, f + ts.length, ts.getLastD l,
        if ts.isEmpty then p else false⟩ := by
  intro ts
  induction ts with
  | nil => intro f l p _; simp [cbFailsN]
  | cons t ts ih =>
      intro f l p h
      simp only [List.length_cons] at h
      push_cast at h
      have hf1 : ¬ (f + 1 ≥ tr) := by omega
      have hrf : CircuitBreaker.RecordFailure ⟨tr, c, .cbClosed, f, l, p⟩ t =
          ⟨tr, c, .cbClosed, f + 1, t, false⟩ := by
        simp [CircuitBreaker.RecordFailure, hf1]
      show cbFailsN (CircuitBreaker.RecordFailure ⟨tr, c, .cbClosed, f, l, p⟩ t) ts = _
      rw [hrf, ih (f + 1) t false (by omega)]
      have h1 : f + 1 + (ts.length : Int) = f + ((t :: ts).length : Int) := by
        simp only [List.length_cons]; omega
      have h2 : ts.getLastD t = (t :: ts).getLastD l :=
        (List.getLastD_cons l t ts).symm
      have h3 : (if ts.isEmpty then false else false) =
          (if (t :: ts).isEmpty then p else false) := by
        cases ts <;> simp
      rw [h1, h2, h3]

/-- Helper: from a closed breaker with a zeroed counter, exactly
`threshold` consecutive failures open the circuit, stamping the last
failure time. -/
lemma cbFailsN_opens (tr : Nat) (c l : Int) (p : Bool) (htr : 1 ≤ tr)
    (ts : List Int) (hts : ts.length = tr) :
    cbFailsN ⟨(tr : Int), c, .cbClosed, 0, l, p⟩ ts =
      ⟨(tr : Int), c, .cbOpen, (tr : Int), ts.getLastD l, false⟩ := by
  have hne : ts ≠ [] := by
    intro he; rw [he] at hts; simp at hts; omega
  have hdec : ts.dropLast ++ [ts.getLast hne] = ts :=
    List.dropLast_append_getLast hne
  have hlen : ts.dropLast.length = tr - 1 := by
    rw [List.length_dropLast, hts]
  have hlast : ts.getLastD l = ts.getLast hne := by
    rw [List.getLastD_eq_getLast?, List.getLast?_eq_getLast ts hne,
      Option.getD_some]
  conv_lhs => rw [← hdec]
  rw [cbFailsN_append,
    cbFailsN_closed tr c ts.dropLast 0 l p (by rw [hlen]; omega)]
  have hge : (0 + (ts.dropLast.length : Int) + 1 ≥ (tr : Int)) := by
    rw [hlen]; omega
  have heq : (0 + (ts.dropLast.length : Int) + 1 = (tr : Int)) := by
    rw [hlen]; omega
  have hstep : CircuitBreaker.RecordFailure
      ⟨(tr : Int), c, .cbClosed, 0 + (ts.dropLast.length : Int),
        ts.dropLast.getLastD l, if ts.dropLast.isEmpty then p else false⟩
      (ts.getLast hne) =
      ⟨(tr : Int), c, .cbOpen, 0 + (ts.dropLast.length : Int) + 1,
        ts.getLast hne, false⟩ := by
    simp only [CircuitBreaker.RecordFailure]
    rw [if_pos hge]
  simp only [cbFailsN]
  rw [hstep, heq, hlast]

/-- Claim C3: the full circuit-breaker state machine.  Starting closed,
exactly `threshold` consecutive `RecordFailure` calls open the circuit
(fewer leave it closed); `Allow` while open before the cooldown has
elapsed since the last failure returns the circuit-open error and leaves
the breaker unchanged; the first `Allow` at or after cooldown moves it to
half-open and returns no error; `RecordSuccess` in half-open closes the
circuit and zeroes the counter, so that `threshold` further failures (and
no fewer) are needed to re-open; `RecordFailure` in half-open re-opens
the circuit and restarts the cooldown from the new failure time. -/
theorem circuitBreaker_state_machine (tr : Nat) (c : Int) (htr : 1 ≤ tr)
    (ts : List Int) (hts : ts.length = tr) :
    (∀ pre : List Int, pre.length < tr →
      (cbFailsN (newCircuitBreaker tr c) pre).state = .cbClosed) ∧
    (cbFailsN (newCircuitBreaker tr c) ts).state = .cbOpen ∧
    (cbFailsN (newCircuitBreaker tr c) ts).lastFailTime = ts.getLastD 0 ∧
    (∀ now : Int, now - ts.getLastD 0 < c →
      ((cbFailsN (newCircuitBreaker tr c) ts).Allow now).1 =
        some (.circuitOpen (c - (now - ts.getLastD 0))) ∧
      ((cbFailsN (newCircuitBreaker tr c) ts).Allow now).2 =
        cbFailsN (newCircuitBreaker tr c) ts) ∧
    (∀ now : Int, c ≤ now - ts.getLastD 0 →
      ((cbFailsN (newCircuitBreaker tr c) ts).Allow now).1 = none ∧
      ((cbFailsN (newCircuitBreaker tr c) ts).Allow now).2.state = .cbHalfOpen ∧
      ((cbFailsN (newCircuitBreaker tr c) ts).Allow now).2.probing = true) ∧
    (∀ now : Int, c ≤ now - ts.getLastD 0 →
      (((cbFailsN (newCircuitBreaker tr c) ts).Allow now).2.RecordSuccess).state
        = .cbClosed ∧
      (((cbFailsN (newCircuitBreaker tr c) ts).Allow now).2.RecordSuccess).failures
        = 0 ∧
      (∀ pre : List Int, pre.length < tr →
        (cbFailsN (((cbFailsN (newCircuitBreaker tr c) ts).Allow
          now).2.RecordSuccess) pre).state = .cbClosed) ∧
      (∀ ts2 : List Int, ts2.length = tr →
        (cbFailsN (((cbFailsN (newCircuitBreaker tr c) ts).Allow
          now).2.RecordSuccess) ts2).state = .cbOpen)) ∧
    (∀ now t2 : Int, c ≤ now - ts.getLastD 0 →
      ((((cbFailsN (newCircuitBreaker tr c) ts).Allow now).2).RecordFailure
        t2).state = .cbOpen ∧
      ((((cbFailsN (newCircuitBreaker tr c) ts).Allow now).2).RecordFailure
        t2).lastFailTime = t2 ∧
      (∀ now2 : Int, now2 - t2 < c →
        (((((cbFailsN (newCircuitBreaker tr c) ts).Allow now).2).RecordFailure
          t2).Allow now2).1 = some (.circuitOpen (c - (now2 - t2))))) := by
  have hopen : cbFailsN (newCircuitBreaker tr c) ts =
      ⟨(tr : Int), c, .cbOpen, (tr : Int), ts.getLastD 0, false⟩ :=
    cbFailsN_opens tr c 0 false htr ts hts
  generalize hL : ts.getLastD 0 = L at hopen ⊢
  have hhalf : ∀ now : Int, c ≤ now - L →
      (CircuitBreaker.Allow ⟨(tr : Int), c, .cbOpen, (tr : Int), L, false⟩ now) =
        (none, ⟨(tr : Int), c, .cbHalfOpen, (tr : Int), L, true⟩) := by
    intro now h
    simp [CircuitBreaker.Allow, show now - L ≥ c from h]
  have hrej : ∀ now : Int, now - L < c →
      (CircuitBreaker.Allow ⟨(tr : Int), c, .cbOpen, (tr : Int), L, false⟩ now) =
        (some (.circuitOpen (c - (now - L))),
          ⟨(tr : Int), c, .cbOpen, (tr : Int), L, false⟩) := by
    intro now h
    simp [CircuitBreaker.Allow, show ¬ (now - L ≥ c) by omega]
  refine ⟨?_, ?_, ?_, ?_, ?_, ?_, ?_⟩
  · intro pre hpre
    rw [show newCircuitBreaker tr c = ⟨(tr : Int), c, .cbClosed, 0, 0, false⟩
      from rfl, cbFailsN_closed _ _ pre 0 0 false (by omega)]
  · rw [hopen]
  · rw [hopen]
  · intro now h
    rw [hopen, hrej now h]
    exact ⟨rfl, rfl⟩
  · intro now h
    rw [hopen, hhalf now h]
    exact ⟨rfl, rfl, rfl⟩
  · intro now h
    rw [hopen, hhalf now h]
    have hsucc : CircuitBreaker.RecordSuccess
        ⟨(tr : Int), c, .cbHalfOpen, (tr : Int), L, true⟩ =
        ⟨(tr : Int), c, .cbClosed, 0, L, false⟩ := rfl
    show _ ∧ _ ∧ _ ∧ _
    rw [hsucc]
    refine ⟨rfl, rfl, ?_, ?_⟩
    · intro pre hpre
      rw [cbFailsN_closed _ _ pre 0 _ false (by omega)]
    · intro ts2 hts2
      rw [cbFailsN_opens tr c _ false htr ts2 hts2]
  · intro now t2 h
    rw [hopen, hhalf now h]
    have hrf : CircuitBreaker.RecordFailure
        ⟨(tr : Int), c, .cbHalfOpen, (tr : Int), L, true⟩ t2 =
        ⟨(tr : Int), c, .cbOpen, (tr : Int), t2, false⟩ := rfl
    rw [hrf]
    refine ⟨rfl, rfl, ?_⟩
    intro now2 h2
    simp [CircuitBreaker.Allow, show ¬ (now2 - t2 ≥ c) by omega]

/-- Witness for `circuitBreaker_state_machine`: threshold 2, cooldown 5,
failures at times 10 and 20; checks one conjunct of each guarded part at
concrete times. -/
theorem circuitBreaker_state_machine_witness :
    (cbFailsN (newCircuitBreaker 2 5) [10]).state = .cbClosed ∧
    (cbFailsN (newCircuitBreaker 2 5) [10, 20]).state = .cbOpen ∧
    ((cbFailsN (newCircuitBreaker 2 5) [10, 20]).Allow 22).1 =
      some (.circuitOpen 3) ∧
    ((cbFailsN (newCircuitBreaker 2 5) [10, 20]).Allow 25).1 = none ∧
    ((cbFailsN (newCircuitBreaker 2 5) [10, 20]).Allow
      25).2.RecordSuccess.failures = 0 ∧
    ((((cbFailsN (newCircuitBreaker 2 5) [10, 20]).Allow 25).2).RecordFailure
      30).lastFailTime = 30 := by
  have h := circuitBreaker_state_machine 2 5 (by norm_num) [10, 20] rfl
  exact ⟨h.1 [10] (by norm_num), h.2.1,
    ((h.2.2.2.1 22 (by decide)).1).trans (by decide),
    (h.2.2.2.2.1 25 (by decide)).1,
    (h.2.2.2.2.2.1 25 (by decide)).2.1,
    (h.2.2.2.2.2.2 25 30 (by decide)).2.1⟩

/-! ### Unfolding lemmas for the `Do` loop -/

/-- The breaker rejects: `Do` returns its error with no transport call. -/
lemma doLoop_reject {hr : Bool} {dec : List Nat → Bool} {bb : Option (List Nat)}
    {out : Nat → Outcome} {now : Int} {remaining attempt : Nat}
    {cb? cb1 : Option CircuitBreaker} {e : CBError}
    (h : allowGate cb? now = (some e, cb1)) :
    doLoop hr dec bb out now remaining attempt cb? =
      ⟨0, [], .circuitOpen e, cb1, false⟩ := by
  cases remaining <;> simp only [doLoop, h]

/-- Transport error with no retries left. -/
lemma doLoop_transport_last {hr : Bool} {dec : List Nat → Bool}
    {bb : Option (List Nat)} {out : Nat → Outcome} {now : Int} {attempt : Nat}
    {cb? cb1 : Option CircuitBreaker}
    (h : allowGate cb? now = (none, cb1)) (ho : out attempt = .transportError) :
    doLoop hr dec bb out now 0 attempt cb? =
      ⟨1, [bb], .transportFailed, cbFail cb1 now, false⟩ := by
  simp only [doLoop, h, ho]

/-- Transport error with retries left: sleep and recurse. -/
lemma doLoop_transport_retry {hr : Bool} {dec : List Nat → Bool}
    {bb : Option (List Nat)} {out : Nat → Outcome} {now : Int}
    {attempt r : Nat} {cb? cb1 : Option CircuitBreaker}
    (h : allowGate cb? now = (none, cb1)) (ho : out attempt = .transportError) :
    doLoop hr dec bb out now (r + 1) attempt cb? =
      { doLoop hr dec bb out now r (attempt + 1) (cbFail cb1 now) with
        attempts :=
          (doLoop hr dec bb out now r (attempt + 1) (cbFail cb1 now)).attempts + 1,
        sentBodies :=
          bb :: (doLoop hr dec bb out now r (attempt + 1) (cbFail cb1 now)).sentBodies } := by
  simp only [doLoop, h, ho]

/-- Retryable status (429/503) with no retries left: record the failure
and fall through to final processing of this response. -/
lemma doLoop_retryable_last {hr : Bool} {dec : List Nat → Bool}
    {bb : Option (List Nat)} {out : Nat → Outcome} {now : Int} {attempt : Nat}
    {cb? cb1 : Option CircuitBreaker} {s : Int} {b : List Nat}
    (h : allowGate cb? now = (none, cb1)) (ho : out attempt = .response s b)
    (hs : s = 429 ∨ s = 503) :
    doLoop hr dec bb out now 0 attempt cb? =
      ⟨1, [bb], (finishResponse hr dec (cbFail cb1 now) s b).1,
        (finishResponse hr dec (cbFail cb1 now) s b).2.1,
        (finishResponse hr dec (cbFail cb1 now) s b).2.2⟩ := by
  simp only [doLoop, h, ho, if_pos hs]

/-- Retryable status (429/503) with retries left: record the failure,
drain the body, sleep and recurse. -/
lemma doLoop_retryable_retry {hr : Bool} {dec : List Nat → Bool}
    {bb : Option (List Nat)} {out : Nat → Outcome} {now : Int} {attempt r : Nat}
    {cb? cb1 : Option CircuitBreaker} {s : Int} {b : List Nat}
    (h : allowGate cb? now = (none, cb1)) (ho : out attempt = .response s b)
    (hs : s = 429 ∨ s = 503) :
    doLoop hr dec bb out now (r + 1) attempt cb? =
      { doLoop hr dec bb out now r (attempt + 1) (cbFail cb1 now) with
        attempts :=
          (doLoop hr dec bb out now r (attempt + 1) (cbFail cb1 now)).attempts + 1,
        sentBodies :=
          bb :: (doLoop hr dec bb out now r (attempt + 1) (cbFail cb1 now)).sentBodies } := by
  simp only [doLoop, h, ho, if_pos hs]

/-- A non-retryable response breaks the loop immediately. -/
lemma doLoop_break {hr : Bool} {dec : List Nat → Bool} {bb : Option (List Nat)}
    {out : Nat → Outcome} {now : Int} {remaining attempt : Nat}
    {cb? cb1 : Option CircuitBreaker} {s : Int} {b : List Nat}
    (h : allowGate cb? now = (none, cb1)) (ho : out attempt = .response s b)
    (hs : ¬(s = 429 ∨ s = 503)) :
    doLoop hr dec bb out now remaining attempt cb? =
      ⟨1, [bb], (finishResponse hr dec cb1 s b).1,
        (finishResponse hr dec cb1 s b).2.1,
        (finishResponse hr dec cb1 s b).2.2⟩ := by
  cases remaining <;> simp only [doLoop, h, ho, if_neg hs]

/-- Projections of the transport-retry step. -/
lemma doLoop_transport_retry_fields (hr : Bool) (dec : List Nat → Bool)
    (bb : Option (List Nat)) {out : Nat → Outcome} {now : Int}
    {attempt r : Nat} {cb? cb1 : Option CircuitBreaker}
    (h : allowGate cb? now = (none, cb1)) (ho : out attempt = .transportError) :
    (doLoop hr dec bb out now (r + 1) attempt cb?).attempts =
      (doLoop hr dec bb out now r (attempt + 1) (cbFail cb1 now)).attempts + 1 ∧
    (doLoop hr dec bb out now (r + 1) attempt cb?).sentBodies =
      bb :: (doLoop hr dec bb out now r (attempt + 1) (cbFail cb1 now)).sentBodies ∧
    (doLoop hr dec bb out now (r + 1) attempt cb?).result =
      (doLoop hr dec bb out now r (attempt + 1) (cbFail cb1 now)).result ∧
    (doLoop hr dec bb out now (r + 1) attempt cb?).decodeAttempted =
      (doLoop hr dec bb out now r (attempt + 1) (cbFail cb1 now)).decodeAttempted := by
  rw [doLoop_transport_retry h ho]
  exact ⟨rfl, rfl, rfl, rfl⟩

/-- Projections of the 429/503-retry step. -/
lemma doLoop_retryable_retry_fields (hr : Bool) (dec : List Nat → Bool)
    (bb : Option (List Nat)) {out : Nat → Outcome} {now : Int}
    {attempt r : Nat} {cb? cb1 : Option CircuitBreaker} {s : Int} {b : List Nat}
    (h : allowGate cb? now = (none, cb1)) (ho : out attempt = .response s b)
    (hs : s = 429 ∨ s = 503) :
    (doLoop hr dec bb out now (r + 1) attempt cb?).attempts =
      (doLoop hr dec bb out now r (attempt + 1) (cbFail cb1 now)).attempts + 1 ∧
    (doLoop hr dec bb out now (r + 1) attempt cb?).sentBodies =
      bb :: (doLoop hr dec bb out now r (attempt + 1) (cbFail cb1 now)).sentBodies ∧
    (doLoop hr dec bb out now (r + 1) attempt cb?).result =
      (doLoop hr dec bb out now r (attempt + 1) (cbFail cb1 now)).result ∧
    (doLoop hr dec bb out now (r + 1) attempt cb?).decodeAttempted =
      (doLoop hr dec bb out now r (attempt + 1) (cbFail cb1 now)).decodeAttempted := by
  rw [doLoop_retryable_retry h ho hs]
  exact ⟨rfl, rfl, rfl, rfl⟩

/-- Helper: the loop never performs more than `remaining + 1` transport
calls. -/
lemma doLoop_attempts_le (hr : Bool) (dec : List Nat → Bool)
    (bb : Option (List Nat)) (out : Nat → Outcome) (now : Int) :
    ∀ (remaining attempt : Nat) (cb? : Option CircuitBreaker),
      (doLoop hr dec bb out now remaining attempt cb?).attempts ≤ remaining + 1 := by
  intro remaining
  induction remaining with
  | zero =>
      intro attempt cb?
      rcases hA : allowGate cb? now with ⟨_ | e, cb1⟩
      · rcases ho : out attempt with _ | ⟨s, b⟩
        · rw [doLoop_transport_last hA ho]
        · by_cases hs : s = 429 ∨ s = 503
          · rw [doLoop_retryable_last hA ho hs]
          · rw [doLoop_break hA ho hs]
      · rw [doLoop_reject hA]
        exact Nat.zero_le 1
  | succ r ih =>
      intro attempt cb?
      rcases hA : allowGate cb? now with ⟨_ | e, cb1⟩
      · rcases ho : out attempt with _ | ⟨s, b⟩
        · rw [(doLoop_transport_retry_fields hr dec bb hA ho).1]
          have := ih (attempt + 1) (cbFail cb1 now)
          omega
        · by_cases hs : s = 429 ∨ s = 503
          · rw [(doLoop_retryable_retry_fields hr dec bb hA ho hs).1]
            have := ih (attempt + 1) (cbFail cb1 now)
            omega
          · rw [doLoop_break hA ho hs]
            exact Nat.le_add_left 1 (r + 1)
      · rw [doLoop_reject hA]
        exact Nat.zero_le (r + 2)

/-- Helper: every transport call carries exactly the pre-buffered body
bytes. -/
lemma doLoop_sentBodies (hr : Bool) (dec : List Nat → Bool)
    (bb : Option (List Nat)) (out : Nat → Outcome) (now : Int) :
    ∀ (remaining attempt : Nat) (cb? : Option CircuitBreaker),
      (doLoop hr dec bb out now remaining attempt cb?).sentBodies =
        List.replicate (doLoop hr dec bb out now remaining attempt cb?).attempts bb := by
  intro remaining
  induction remaining with
  | zero =>
      intro attempt cb?
      rcases hA : allowGate cb? now with ⟨_ | e, cb1⟩
      · rcases ho : out attempt with _ | ⟨s, b⟩
        · rw [doLoop_transport_last hA ho]; rfl
        · by_cases hs : s = 429 ∨ s = 503
          · rw [doLoop_retryable_last hA ho hs]; rfl
          · rw [doLoop_break hA ho hs]; rfl
      · rw [doLoop_reject hA]; rfl
  | succ r ih =>
      intro attempt cb?
      rcases hA : allowGate cb? now with ⟨_ | e, cb1⟩
      · rcases ho : out attempt with _ | ⟨s, b⟩
        · obtain ⟨h1, h2, -, -⟩ := doLoop_transport_retry_fields hr dec bb hA ho
          rw [h1, h2, ih (attempt + 1) (cbFail cb1 now), List.replicate_succ]
        · by_cases hs : s = 429 ∨ s = 503
          · obtain ⟨h1, h2, -, -⟩ := doLoop_retryable_retry_fields hr dec bb hA ho hs
            rw [h1, h2, ih (attempt + 1) (cbFail cb1 now), List.replicate_succ]
          · rw [doLoop_break hA ho hs]; rfl
      · rw [doLoop_reject hA]; rfl

/-- Helper: a response whose status is neither 429 nor 503 at index `k`
stops the loop: at most `k - attempt + 1` calls happen from `attempt`. -/
lemma doLoop_stops_after_nonretryable (hr : Bool) (dec : List Nat → Bool)
    (bb : Option (List Nat)) (out : Nat → Outcome) (now : Int)
    (k : Nat) (s : Int) (b : List Nat)
    (hk : out k = .response s b) (hs : ¬(s = 429 ∨ s = 503)) :
    ∀ (remaining attempt : Nat) (cb? : Option CircuitBreaker), attempt ≤ k →
      (doLoop hr dec bb out now remaining attempt cb?).attempts ≤
        k - attempt + 1 := by
  intro remaining
  induction remaining with
  | zero =>
      intro attempt cb? _
      have := doLoop_attempts_le hr dec bb out now 0 attempt cb?
      omega
  | succ r ih =>
      intro attempt cb? hak
      rcases hA : allowGate cb? now with ⟨_ | e, cb1⟩
      · rcases ho : out attempt with _ | ⟨s2, b2⟩
        · have hne : attempt ≠ k := by
            intro he
            rw [he, hk] at ho
            exact Outcome.noConfusion ho
          rw [(doLoop_transport_retry_fields hr dec bb hA ho).1]
          have := ih (attempt + 1) (cbFail cb1 now) (by omega)
          omega
        · by_cases hs2 : s2 = 429 ∨ s2 = 503
          · have hne : attempt ≠ k := by
              intro he
              rw [he, hk] at ho
              injection ho with h1 h2
              exact hs (h1 ▸ hs2)
            rw [(doLoop_retryable_retry_fields hr dec bb hA ho hs2).1]
            have := ih (attempt + 1) (cbFail cb1 now) (by omega)
            omega
          · rw [doLoop_break hA ho hs2]
            show 1 ≤ k - attempt + 1
            omega
      · rw [doLoop_reject hA]
        exact Nat.zero_le _

/-- Helper: final processing of a 2xx response with an empty body gives
a nil error and never touches the decode target. -/
lemma finishResponse_2xx_empty (hr : Bool) (dec : List Nat → Bool)
    (cb : Option CircuitBreaker) (s : Int) (h1 : 200 ≤ s) (h2 : s < 300) :
    finishResponse hr dec cb s [] = (.ok s [], cb.map (·.RecordSuccess), false) := by
  unfold finishResponse
  rw [if_neg (show ¬(s < 200 ∨ 300 ≤ s) by omega),
    if_neg (show ¬(hr = true ∧ ([] : List Nat) ≠ []) by simp),
    if_pos (show 200 ≤ s ∧ s < 300 from ⟨h1, h2⟩)]

/-- Helper: when the loop ends on a 2xx response with empty body, the
trace result is `ok` and decoding was never attempted. -/
lemma doLoop_final_2xx_empty (hr : Bool) (dec : List Nat → Bool)
    (bb : Option (List Nat)) (out : Nat → Outcome) (now : Int) (s : Int)
    (h200 : 200 ≤ s) (h300 : s < 300) :
    ∀ (remaining attempt m : Nat) (cb? : Option CircuitBreaker),
      (doLoop hr dec bb out now remaining attempt cb?).attempts = m + 1 →
      out (attempt + m) = .response s [] →
      (doLoop hr dec bb out now remaining attempt cb?).result = .ok s [] ∧
      (doLoop hr dec bb out now remaining attempt cb?).decodeAttempted = false := by
  have hsnr : ¬(s = 429 ∨ s = 503) := by omega
  intro remaining
  induction remaining with
  | zero =>
      intro attempt m cb? hatt hout
      rcases hA : allowGate cb? now with ⟨_ | e, cb1⟩
      · rcases ho : out attempt with _ | ⟨s2, b2⟩
        · rw [doLoop_transport_last hA ho] at hatt
          have hm : m = 0 := by
            have : (1 : Nat) = m + 1 := hatt
            omega
          subst hm
          rw [Nat.add_zero, ho] at hout
          exact Outcome.noConfusion hout
        · by_cases hs2 : s2 = 429 ∨ s2 = 503
          · rw [doLoop_retryable_last hA ho hs2] at hatt
            have hm : m = 0 := by
              have : (1 : Nat) = m + 1 := hatt
              omega
            subst hm
            rw [Nat.add_zero, ho] at hout
            injection hout with hx hy
            exact absurd (hx ▸ hs2) hsnr
          · have hm : m = 0 := by
              rw [doLoop_break hA ho hs2] at hatt
              have : (1 : Nat) = m + 1 := hatt
              omega
            subst hm
            rw [Nat.add_zero, ho] at hout
            injection hout with hx hy
            rw [hx, hy] at ho
            rw [doLoop_break hA ho hsnr,
              finishResponse_2xx_empty hr dec cb1 s h200 h300]
            exact ⟨rfl, rfl⟩
      · rw [doLoop_reject hA] at hatt
        exact absurd (show (0 : Nat) = m + 1 from hatt) (by omega)
  | succ r ih =>
      intro attempt m cb? hatt hout
      rcases hA : allowGate cb? now with ⟨_ | e, cb1⟩
      · rcases ho : out attempt with _ | ⟨s2, b2⟩
        · obtain ⟨h1, -, h3, h4⟩ := doLoop_transport_retry_fields hr dec bb hA ho
          rw [h1] at hatt
          cases m with
          | zero =>
              rw [Nat.add_zero, ho] at hout
              exact Outcome.noConfusion hout
          | succ m2 =>
              rw [h3, h4]
              refine ih (attempt + 1) m2 (cbFail cb1 now) (by omega) ?_
              rw [show attempt + 1 + m2 = attempt + (m2 + 1) by omega]
              exact hout
        · by_cases hs2 : s2 = 429 ∨ s2 = 503
          · obtain ⟨h1, -, h3, h4⟩ := doLoop_retryable_retry_fields hr dec bb hA ho hs2
            rw [h1] at hatt
            cases m with
            | zero =>
                rw [Nat.add_zero, ho] at hout
                injection hout with hx hy
                exact absurd (hx ▸ hs2) hsnr
            | succ m2 =>
                rw [h3, h4]
                refine ih (attempt + 1) m2 (cbFail cb1 now) (by omega) ?_
                rw [show attempt + 1 + m2 = attempt + (m2 + 1) by omega]
                exact hout
          · have hm : m = 0 := by
              rw [doLoop_break hA ho hs2] at hatt
              have : (1 : Nat) = m + 1 := hatt
              omega
            subst hm
            rw [Nat.add_zero, ho] at hout
            injection hout with hx hy
            rw [hx, hy] at ho
            rw [doLoop_break hA ho hsnr,
              finishResponse_2xx_empty hr dec cb1 s h200 h300]
            exact ⟨rfl, rfl⟩
      · rw [doLoop_reject hA] at hatt
        exact absurd (show (0 : Nat) = m + 1 from hatt) (by omega)

/-! ### Claim theorems for the `Do` loop -/

/-- Claim C1: for a client configured with a circuit breaker, `Do`
consults `Allow()` before each attempt (the gate is the first step of
every loop iteration in `doLoop`); whenever `Allow` rejects, `Do` returns
the breaker's error immediately with zero transport calls and nothing
sent.  In the end-to-end scenario (threshold 2, cooldown 30s, no
retries, server always answering 503): the first two `Do` calls each
perform one HTTP attempt and open the circuit, and a third call is
rejected with no HTTP attempt, so the server sees exactly 2 requests. -/
theorem do_circuit_breaker_gate :
    (∀ (R : Nat) (hr : Bool) (dec : List Nat → Bool) (bb : Option (List Nat))
      (out : Nat → Outcome) (now : Int) (cb cb2 : CircuitBreaker) (e : CBError),
      cb.Allow now = (some e, cb2) →
      clientDo R (some cb) hr dec bb out now =
        ⟨0, [], .circuitOpen e, some cb2, false⟩) ∧
    (clientDo 0 (some (newCircuitBreaker 2 30000000000)) false (fun _ => true)
        none (fun _ => .response 503 []) 0).attempts = 1 ∧
    (clientDo 0 (some (newCircuitBreaker 2 30000000000)) false (fun _ => true)
        none (fun _ => .response 503 []) 0).cb =
      some ⟨2, 30000000000, .cbClosed, 1, 0, false⟩ ∧
    (clientDo 0 (some ⟨2, 30000000000, .cbClosed, 1, 0, false⟩) false
        (fun _ => true) none (fun _ => .response 503 []) 1000000000).attempts = 1 ∧
    (clientDo 0 (some ⟨2, 30000000000, .cbClosed, 1, 0, false⟩) false
        (fun _ => true) none (fun _ => .response 503 []) 1000000000).cb =
      some ⟨2, 30000000000, .cbOpen, 2, 1000000000, false⟩ ∧
    (clientDo 0 (some ⟨2, 30000000000, .cbOpen, 2, 1000000000, false⟩) false
        (fun _ => true) none (fun _ => .response 503 []) 2000000000).attempts = 0 ∧
    (clientDo 0 (some ⟨2, 30000000000, .cbOpen, 2, 1000000000, false⟩) false
        (fun _ => true) none (fun _ => .response 503 []) 2000000000).result =
      .circuitOpen (.circuitOpen 29000000000) ∧
    (clientDo 0 (some ⟨2, 30000000000, .cbOpen, 2, 1000000000, false⟩) false
        (fun _ => true) none (fun _ => .response 503 []) 2000000000).sentBodies
      = [] := by
  refine ⟨?_, by decide, by decide, by decide, by decide, by decide, by decide,
    by decide⟩
  intro R hr dec bb out now cb cb2 e h
  unfold clientDo
  exact doLoop_reject (by simp [allowGate, h])

/-- Witness for `do_circuit_breaker_gate`: a breaker that is open and
still cooling down makes `Do` return the circuit-open error with no
transport call. -/
theorem do_circuit_breaker_gate_witness :
    clientDo 5 (some ⟨2, 10, .cbOpen, 2, 0, false⟩) true (fun _ => true)
      (some [1]) (fun _ => .response 200 [1]) 3 =
      ⟨0, [], .circuitOpen (.circuitOpen 7), some ⟨2, 10, .cbOpen, 2, 0, false⟩,
        false⟩ :=
  do_circuit_breaker_gate.1 5 true (fun _ => true) (some [1])
    (fun _ => .response 200 [1]) 3 ⟨2, 10, .cbOpen, 2, 0, false⟩
    ⟨2, 10, .cbOpen, 2, 0, false⟩ (.circuitOpen 7) (by decide)

/-- Claim C4: the request body is buffered once before the loop (in the
embedding, `bodyBytes` is fixed before `doLoop` starts) and every attempt
hands the transport exactly those bytes: the per-attempt body list is
`attempts` copies of the buffered bytes, so no attempt sends an empty or
truncated body.  The second conjunct is the spec scenario: a POST that
gets a 503 then a 200 delivers the complete identical body twice. -/
theorem do_body_replay :
    (∀ (R : Nat) (cb? : Option CircuitBreaker) (hr : Bool)
      (dec : List Nat → Bool) (out : Nat → Outcome) (now : Int) (bs : List Nat),
      (clientDo R cb? hr dec (some bs) out now).sentBodies =
        List.replicate (clientDo R cb? hr dec (some bs) out now).attempts
          (some bs)) ∧
    (clientDo 1 none true (fun _ => true) (some [7, 8, 9])
      (fun a => if a = 0 then .response 503 [] else .response 200 [1])
      0).sentBodies = [some [7, 8, 9], some [7, 8, 9]] := by
  refine ⟨?_, by decide⟩
  intro R cb? hr dec out now bs
  exact doLoop_sentBodies hr dec (some bs) out now R 0 cb?

/-- Claim C8: at most `maxRetries + 1` transport calls per `Do`; with the
default configuration (`maxRetries = 0`, no breaker) exactly one; and a
response whose status is neither 429 nor 503 at attempt `k` is never
followed by another attempt. -/
theorem do_retry_budget :
    (∀ (R : Nat) (cb? : Option CircuitBreaker) (hr : Bool)
      (dec : List Nat → Bool) (bb : Option (List Nat)) (out : Nat → Outcome)
      (now : Int), (clientDo R cb? hr dec bb out now).attempts ≤ R + 1) ∧
    (∀ (hr : Bool) (dec : List Nat → Bool) (bb : Option (List Nat))
      (out : Nat → Outcome) (now : Int),
      (clientDo 0 none hr dec bb out now).attempts = 1) ∧
    (∀ (R : Nat) (cb? : Option CircuitBreaker) (hr : Bool)
      (dec : List Nat → Bool) (bb : Option (List Nat)) (out : Nat → Outcome)
      (now : Int) (k : Nat) (s : Int) (b : List Nat),
      out k = .response s b → s ≠ 429 → s ≠ 503 →
      (clientDo R cb? hr dec bb out now).attempts ≤ k + 1) := by
  refine ⟨?_, ?_, ?_⟩
  · intro R cb? hr dec bb out now
    exact doLoop_attempts_le hr dec bb out now R 0 cb?
  · intro hr dec bb out now
    have hA : allowGate (none : Option CircuitBreaker) now = (none, none) := rfl
    rcases ho : out 0 with _ | ⟨s, b⟩
    · rw [clientDo, doLoop_transport_last hA ho]
    · by_cases hs : s = 429 ∨ s = 503
      · rw [clientDo, doLoop_retryable_last hA ho hs]
      · rw [clientDo, doLoop_break hA ho hs]
  · intro R cb? hr dec bb out now k s b hk h429 h503
    have h := doLoop_stops_after_nonretryable hr dec bb out now k s b hk
      (by omega) R 0 cb? (Nat.zero_le k)
    simpa using h

/-- Witness for `do_retry_budget`: an immediate 404 stops a client that
still had 4 retries available after one attempt. -/
theorem do_retry_budget_witness :
    (clientDo 4 none true (fun _ => true) none (fun _ => .response 404 [])
      0).attempts ≤ 1 :=
  do_retry_budget.2.2 4 none true (fun _ => true) none
    (fun _ => .response 404 []) 0 0 404 [] rfl (by norm_num) (by norm_num)

/-- Claim C10: when the final response of a `Do` invocation has a 2xx
status and an empty body, `Do` returns a nil error (`DoResult.ok`) and
never attempts decoding, so the caller-supplied target is untouched. -/
theorem do_empty_success_skips_decode (R : Nat) (cb? : Option CircuitBreaker)
    (hr : Bool) (dec : List Nat → Bool) (bb : Option (List Nat))
    (out : Nat → Outcome) (now : Int) (m : Nat) (s : Int)
    (hatt : (clientDo R cb? hr dec bb out now).attempts = m + 1)
    (hout : out m = .response s []) (h200 : 200 ≤ s) (h300 : s < 300) :
    (clientDo R cb? hr dec bb out now).result = .ok s [] ∧
    (clientDo R cb? hr dec bb out now).decodeAttempted = false :=
  doLoop_final_2xx_empty hr dec bb out now s h200 h300 R 0 m cb? hatt
    (by rw [Nat.zero_add]; exact hout)

/-- Witness for `do_empty_success_skips_decode`: a single 204 No Content
response with empty body, a decode target supplied. -/
theorem do_empty_success_skips_decode_witness :
    (clientDo 0 none true (fun _ => true) none (fun _ => .response 204 [])
      0).result = .ok 204 [] ∧
    (clientDo 0 none true (fun _ => true) none (fun _ => .response 204 [])
      0).decodeAttempted = false :=
  do_empty_success_skips_decode 0 none true (fun _ => true) none
    (fun _ => .response 204 []) 0 0 204 (by decide) rfl (by norm_num)
    (by norm_num)

/-! ### Query-string building (claim C7)

The v0.2.0 http.go refactors `buildQueryString` into
`buildQueryString` + `buildQueryStringFromStruct`, adding slice expansion
into repeated parameters and recursive extraction of url-tagged fields
from embedded/nested option structs.  That revision is absent from the
tree (only its tests and the CHANGELOG entry remain), so the builder is
modelled from the spec below.  An options struct is a sequence of
url-tagged fields; a field value is a scalar (string/int), a slice, or an
embedded option struct.  The model produces the list of `(name, value)`
query parameters before URL percent-encoding and sorting, which is the
observable content of the produced query string. -/

mutual
/-- Modelled from the spec: a field value of an options struct as seen by
the reflection-based query-string builder (scalar, slice, or
embedded/nested option struct). -/
inductive QValue where
  | str (s : String)
  | int (n : Int)
  | slist (elems : QList)
  | group (fields : QFields)
deriving Repr

/-- A slice value: a sequence of element values. -/
inductive QList where
  | nil
  | cons (v : QValue) (rest : QList)
deriving Repr

/-- Modelled from the spec: the url-tagged fields of an options struct:
tag name, whether the tag carries `omitempty`, the value, and the rest
of the fields. -/
inductive QFields where
  | nil
  | cons (name : String) (omitempty : Bool) (v : QValue) (rest : QFields)
deriving Repr
end

/-- Plain-list view of a slice value. -/
def QList.toList : QList → List QValue
  | .nil => []
  | .cons v rest => v :: rest.toList

mutual
/-- The zero-value test of the builder (`reflect.Value.IsZero`): empty
string, zero int, empty slice, struct with all fields zero. -/
def QValue.isZero : QValue → Bool
  | .str s => s = ""
  | .int n => n = 0
  | .slist .nil => true
  | .slist (.cons _ _) => false
  | .group fs => QFields.allZero fs

/-- All fields of a struct are zero. -/
def QFields.allZero : QFields → Bool
  | .nil => true
  | .cons _ _ v rest => QValue.isZero v && QFields.allZero rest
end

/-- Scalar rendering of a slice element (`fmt`-style; only scalars occur
as slice elements in the option structs of this library). -/
def QValue.render : QValue → String
  | .str s => s
  | .int n => toString n
  | .slist _ => ""
  | .group _ => ""

mutual
/-- Modelled from the spec: the parameters produced for a whole options
struct (v0.2.0 `buildQueryStringFromStruct`, recursive over embedded
structs). -/
def buildParams : QFields → List (String × String)
  | .nil => []
  | .cons name om v rest => fieldParams name om v ++ buildParams rest

/-- Parameters produced for one field: omitted when tagged `omitempty`
and zero; an embedded struct is flattened recursively into its own
fields' parameters; a slice expands to one repeated parameter per
element; a scalar yields a single parameter. -/
def fieldParams : String → Bool → QValue → List (String × String)
  | _, om, .group fs =>
      if om && QValue.isZero (.group fs) then [] else buildParams fs
  | name, om, .slist es =>
      if om && QValue.isZero (.slist es) then [] else listParams name es
  | name, om, .str s =>
      if om && QValue.isZero (.str s) then [] else [(name, s)]
  | name, om, .int n =>
      if om && QValue.isZero (.int n) then [] else [(name, toString n)]

/-- Repeated `name=value` parameters for a slice field (`params.Add` per
element, never a single comma-joined value). -/
def listParams : String → QList → List (String × String)
  | _, .nil => []
  | name, .cons e es => (name, QValue.render e) :: listParams name es
end

/-- Helper: slice fields produce exactly one parameter per element,
all under the slice's tag name. -/
lemma listParams_eq_map (name : String) :
    ∀ es : QList, listParams name es = es.toList.map (fun e => (name, e.render))
  | .nil => rfl
  | .cons e es => by
      simp [listParams, QList.toList, listParams_eq_map name es]

/-- Claim C7: the query-string builder flattens embedded/nested option
structs recursively into their individual tagged parameters, expands a
slice-valued field with n elements into n repeated `name=value`
parameters (never a single joined value), and omits `omitempty` fields
whose value is the zero value.  The last three conjuncts instantiate the
repository's own test cases (an embedded `core.ListOptions` inside an
order-style options struct, a three-element tags slice, and an empty
slice producing no parameters). -/
theorem buildQueryString_contract :
    (∀ (name : String) (om : Bool) (fs : QFields),
      ¬(om = true ∧ QFields.allZero fs = true) →
      fieldParams name om (.group fs) = buildParams fs) ∧
    (∀ (name : String) (om : Bool) (e : QValue) (es : QList),
      fieldParams name om (.slist (.cons e es)) =
        (QList.cons e es).toList.map (fun x => (name, x.render)) ∧
      (fieldParams name om (.slist (.cons e es))).length =
        (QList.cons e es).toList.length ∧
      ∀ p ∈ fieldParams name om (.slist (.cons e es)), p.1 = name) ∧
    (∀ (name : String) (v : QValue), v.isZero = true →
      fieldParams name true v = []) ∧
    buildParams (.cons "" false (.group (.cons "limit" true (.int 10)
        (.cons "page" true (.int 2) .nil)))
      (.cons "status" true (.str "open") .nil)) =
      [("limit", "10"), ("page", "2"), ("status", "open")] ∧
    buildParams (.cons "tags" true (.slist (.cons (.str "new")
        (.cons (.str "featured") (.cons (.str "sale") .nil)))) .nil) =
      [("tags", "new"), ("tags", "featured"), ("tags", "sale")] ∧
    buildParams (.cons "ids" true (.slist .nil) .nil) = [] := by
  refine ⟨?_, ?_, ?_, by decide, by decide, by decide⟩
  · intro name om fs h
    show (if om && QValue.isZero (.group fs) then [] else buildParams fs) = _
    rw [if_neg]
    simp only [QValue.isZero, Bool.and_eq_true]
    exact h
  · intro name om e es
    have h1 : fieldParams name om (.slist (.cons e es)) =
        listParams name (.cons e es) := by
      show (if om && QValue.isZero (.slist (.cons e es)) then []
        else listParams name (.cons e es)) = _
      rw [show QValue.isZero (.slist (.cons e es)) = false from rfl]
      simp
    rw [h1, listParams_eq_map]
    refine ⟨rfl, by simp, ?_⟩
    intro p hp
    simp only [List.mem_map] at hp
    obtain ⟨x, -, hx⟩ := hp
    rw [← hx]
  · intro name v hv
    cases v with
    | str s =>
        show (if true && QValue.isZero (.str s) then [] else _) = []
        rw [hv]; simp
    | int n =>
        show (if true && QValue.isZero (.int n) then [] else _) = []
        rw [hv]; simp
    | slist es =>
        show (if true && QValue.isZero (.slist es) then [] else _) = []
        rw [hv]; simp
    | group fs =>
        show (if true && QValue.isZero (.group fs) then [] else _) = []
        rw [hv]; simp

/-- Witness for `buildQueryString_contract`: flattening of a non-zero
embedded struct, expansion of a two-element slice, and omission of a
zero `omitempty` scalar, all at concrete values. -/
theorem buildQueryString_contract_witness :
    fieldParams "opts" true (.group (.cons "page" true (.int 3) .nil)) =
      buildParams (.cons "page" true (.int 3) .nil) ∧
    fieldParams "ids" true (.slist (.cons (.int 7) (.cons (.int 9) .nil))) =
      [("ids", "7"), ("ids", "9")] ∧
    fieldParams "status" true (.str "") = [] := by
  refine ⟨?_, ?_, ?_⟩
  · exact buildQueryString_contract.1 "opts" true
      (.cons "page" true (.int 3) .nil) (by decide)
  · exact (buildQueryString_contract.2.1 "ids" true (.int 7)
      (.cons (.int 9) .nil)).1.trans (by decide)
  · exact buildQueryString_contract.2.2.1 "status" (.str "") (by decide)

/-! ### Token manager, sequential view (claim C9)

Translation of token_manager.go for a single caller: `ManagedToken` with
its expiry predicates, `SetInitialToken`, and `GetToken` (first-call
store load, fast path, refresh).  The token store and the refresh
callback are oracles; the singleflight channel never comes into play with
one caller and is treated in the concurrent model further below. -/

/-- Go `ManagedToken` (token_store.go). -/
structure ManagedToken where
  AccessToken : String
  ExpireAt : Int
  Scope : String
deriving DecidableEq, Repr

/-- Go `(*ManagedToken).IsExpiring(buffer)` for a non-nil token:
`time.Now().Add(buffer).After(t.ExpireAt)`. -/
def ManagedToken.IsExpiring (t : ManagedToken) (now buffer : Int) : Bool :=
  now + buffer > t.ExpireAt

/-- Go `(*ManagedToken).IsExpired()` for a non-nil token. -/
def ManagedToken.IsExpired (t : ManagedToken) (now : Int) : Bool :=
  now > t.ExpireAt

/-- The mutable TokenManager state a single caller observes. -/
structure TMState where
  token : Option ManagedToken
  initialized : Bool
  refreshBuffer : Int
deriving DecidableEq, Repr

/-- Outcome of `store.Set` during `SetInitialToken` (`noStore` models a
nil store, in which case no persistence is attempted). -/
inductive StoreSetResult where
  | noStore
  | setOk
  | setFail
deriving DecidableEq, Repr

/-- Go `(*TokenManager).SetInitialToken`: installs the token and the
initialized flag under the lock first, then persists; a persistence
failure is returned as an error (second component `true`) but nothing is
rolled back. -/
def SetInitialToken (tm : TMState) (accessToken : String) (expireAt : Int)
    (scope : String) (store : StoreSetResult) : TMState × Bool :=
  let tm2 := { tm with token := some ⟨accessToken, expireAt, scope⟩,
                       initialized := true }
  (tm2, match store with
        | .setFail => true
        | _ => false)

/-- Outcome of the first-call `loadFromStore` (`noStore` models a nil
store; `loadErr` a store error, which is only logged). -/
inductive LoadOutcome where
  | noStore
  | loadErr
  | notFound
  | found (t : ManagedToken)
deriving DecidableEq, Repr

/-- Outcome of `doRefresh` (refresh callback plus best-effort persist). -/
inductive RefreshOutcome where
  | refreshed (t : ManagedToken)
  | refreshErr
deriving DecidableEq, Repr

/-- Go `(*TokenManager).GetToken` for a single caller: first call loads
from the store (expired or missing persisted tokens are ignored), a valid
non-expiring token is returned from the fast path, otherwise the caller
becomes the refresher. -/
def GetToken (tm : TMState) (now : Int) (load : LoadOutcome)
    (refresh : RefreshOutcome) : TMState × Option String :=
  let tm1 :=
    if tm.initialized then tm
    else
      let tmI := { tm with initialized := true }
      match load with
      | .found t => if t.IsExpired now then tmI else { tmI with token := some t }
      | _ => tmI
  match tm1.token with
  | some tok =>
      if ¬ tok.IsExpiring now tm1.refreshBuffer then (tm1, some tok.AccessToken)
      else
        match refresh with
        | .refreshed t => ({ tm1 with token := some t }, some t.AccessToken)
        | .refreshErr => (tm1, none)
  | none =>
      match refresh with
      | .refreshed t => ({ tm1 with token := some t }, some t.AccessToken)
      | .refreshErr => (tm1, none)

/-- Claim C9: when the store's `Set` fails during `SetInitialToken`, the
call reports an error, yet the in-memory token and the initialized flag
are already installed and are not rolled back; a subsequent `GetToken`
(within the refresh buffer of the seeded expiry) returns the seeded
token without consulting the store or the refresh callback. -/
theorem setInitialToken_not_rolled_back (tm : TMState) (accessToken : String)
    (expireAt : Int) (scope : String) (now : Int) (load : LoadOutcome)
    (refresh : RefreshOutcome)
    (hvalid : now + tm.refreshBuffer ≤ expireAt) :
    (SetInitialToken tm accessToken expireAt scope .setFail).2 = true ∧
    (SetInitialToken tm accessToken expireAt scope .setFail).1.token =
      some ⟨accessToken, expireAt, scope⟩ ∧
    (SetInitialToken tm accessToken expireAt scope .setFail).1.initialized
      = true ∧
    GetToken (SetInitialToken tm accessToken expireAt scope .setFail).1 now
        load refresh =
      ((SetInitialToken tm accessToken expireAt scope .setFail).1,
        some accessToken) := by
  refine ⟨rfl, rfl, rfl, ?_⟩
  show GetToken ⟨some ⟨accessToken, expireAt, scope⟩, true, tm.refreshBuffer⟩
      now load refresh = _
  unfold GetToken
  simp only [if_pos rfl]
  have hexp : (ManagedToken.IsExpiring ⟨accessToken, expireAt, scope⟩ now
      tm.refreshBuffer) = false := by
    unfold ManagedToken.IsExpiring
    simp only [decide_eq_false_iff_not]
    omega
  simp only [hexp, Bool.not_false, if_pos]
  rfl

/-- Witness for `setInitialToken_not_rolled_back`: concrete seed with a
failing store; `GetToken` at time 0 with a 5-minute buffer returns the
seeded token even though `SetInitialToken` reported an error. -/
theorem setInitialToken_not_rolled_back_witness :
    (SetInitialToken ⟨none, false, 300000000000⟩ "tok-A" 1000000000000 "read"
      .setFail).2 = true ∧
    (SetInitialToken ⟨none, false, 300000000000⟩ "tok-A" 1000000000000 "read"
      .setFail).1.token = some ⟨"tok-A", 1000000000000, "read"⟩ ∧
    (SetInitialToken ⟨none, false, 300000000000⟩ "tok-A" 1000000000000 "read"
      .setFail).1.initialized = true ∧
    GetToken (SetInitialToken ⟨none, false, 300000000000⟩ "tok-A" 1000000000000
        "read" .setFail).1 0 .noStore .refreshErr =
      ((SetInitialToken ⟨none, false, 300000000000⟩ "tok-A" 1000000000000 "read"
        .setFail).1, some "tok-A") :=
  setInitialToken_not_rolled_back ⟨none, false, 300000000000⟩ "tok-A"
    1000000000000 "read" 0 .noStore .refreshErr (by norm_num)

/-! ### Token refresh singleflight, concurrent view (claim C2)

Interleaving model of `GetToken` (token_manager.go) for arbitrarily many
concurrent callers.  Every shared-state access in the source happens in a
lock-protected region, so each such region is one atomic step of one
goroutine; the refresh callback runs outside the lock and is its own
step.  A goroutine cycles through the phases of the source:

* `start`    - about to run the locked entry section: return the token
               when a valid one is cached; otherwise wait on an in-flight
               refresh channel, or become the refresher (install
               `refreshCh`).
* `waiting`  - blocked in the `select` on the broadcast channel; wakes
               when the channel is closed and then retries `GetToken`
               from scratch (the source recursion).
* `refreshing` - the refresher, about to invoke the refresh callback
               (`doRefresh`); the k-th invocation ever returns
               `outcome k`.
* `committing` - holds the callback result; re-acquires the lock,
               installs the token on success, clears and closes the
               channel, and returns.
* `done`     - returned with a token or an error.

The cached token never expires during the experiment (the scenario of
the claim starts with an absent/expired token, modelled as `token =
none`, and asks about the refreshed one).  Context cancellation of
waiters is not exercised by the claim and is not modelled.  Channels are
numbered; `closed` is the set of closed channel ids. -/

/-- Result a `GetToken` call ends with: an access token or an error
(errors are numbered so that distinct refresh failures are
distinguishable). -/
inductive GResult where
  | tok (s : String)
  | err (code : Nat)
deriving DecidableEq, Repr

/-- Phase of one goroutine inside `GetToken`. -/
inductive GPhase where
  | start
  | waiting (c : Nat)
  | refreshing (c : Nat)
  | committing (c : Nat) (r : GResult)
  | done (r : GResult)
deriving DecidableEq, Repr

/-- Shared TokenManager state plus the phase of every goroutine. -/
structure TMSys where
  token : Option String
  refreshCh : Option Nat
  closed : List Nat
  nextCh : Nat
  invocations : Nat
  phases : Nat → GPhase

/-- One atomic step of goroutine `g`, following the source's
lock-protected regions.  A goroutine whose phase cannot advance (a waiter
whose channel is still open, or a finished goroutine) is unchanged. -/
def step (outcome : Nat → GResult) (sys : TMSys) (g : Nat) : TMSys :=
  match sys.phases g with
  | .start =>
      match sys.token with
      | some t =>
          { sys with phases := Function.update sys.phases g (.done (.tok t)) }
      | none =>
          match sys.refreshCh with
          | some c =>
              { sys with phases := Function.update sys.phases g (.waiting c) }
          | none =>
              { sys with refreshCh := some sys.nextCh,
                         nextCh := sys.nextCh + 1,
                         phases := Function.update sys.phases g
                           (.refreshing sys.nextCh) }
  | .waiting c =>
      if c ∈ sys.closed then
        { sys with phases := Function.update sys.phases g .start }
      else sys
  | .refreshing c =>
      { sys with invocations := sys.invocations + 1,
                 phases := Function.update sys.phases g
                   (.committing c (outcome (sys.invocations + 1))) }
  | .committing c r =>
      { sys with
          token := (match r with | .tok s => some s | .err _ => sys.token),
          refreshCh := none,
          closed := c :: sys.closed,
          phases := Function.update sys.phases g (.done r) }
  | .done _ => sys

/-- Run a schedule (a list of goroutine ids, each taking one step). -/
def run (outcome : Nat → GResult) : TMSys → List Nat → TMSys
  | sys, [] => sys
  | sys, g :: rest => run outcome (step outcome sys g) rest

/-- Initial state: no cached token, no refresh in flight, every
goroutine about to call `GetToken`. -/
def initSys : TMSys :=
  { token := none, refreshCh := none, closed := [], nextCh := 0,
    invocations := 0, phases := fun _ => .start }

/-- Claim C2 is false on the code as stated: when the refresh fails, the
woken waiters retry `GetToken` from scratch, and one of them becomes a
*second* refresher.  With two concurrent callers against an absent token
and a refresh callback that fails every time with distinct errors, the
schedule below produces two callback invocations and the two calls
return *different* errors - refuting both "exactly one invocation" and
"the same error". -/
theorem getToken_singleflight_counterexample :
    (run (fun k => .err k) initSys [0, 1, 0, 0, 1, 1, 1, 1]).invocations = 2 ∧
    (run (fun k => .err k) initSys [0, 1, 0, 0, 1, 1, 1, 1]).phases 0 =
      .done (.err 1) ∧
    (run (fun k => .err k) initSys [0, 1, 0, 0, 1, 1, 1, 1]).phases 1 =
      .done (.err 2) ∧
    .done (.err 1) ≠ (GPhase.done (.err 2)) := by
  refine ⟨by decide, by decide, by decide, by decide⟩

/-- Goroutine `g` currently owns the refresh (is between installing the
channel and closing it). -/
def WorkerAt (sys : TMSys) (g : Nat) : Prop :=
  (∃ c, sys.phases g = .refreshing c) ∨ (∃ c r, sys.phases g = .committing c r)

/-- Invariant of the singleflight protocol when the first refresh
invocation succeeds with token `T`. -/
structure SFInv (T : String) (sys : TMSys) : Prop where
  inv_le : sys.invocations ≤ 1
  token_ok : ∀ t, sys.token = some t → t = T ∧ sys.invocations = 1
  done_ok : ∀ g r, sys.phases g = .done r → r = .tok T
  done_inv : ∀ g r, sys.phases g = .done r → sys.invocations = 1
  refr : ∀ g c, sys.phases g = .refreshing c →
    sys.refreshCh = some c ∧ sys.invocations = 0 ∧ sys.token = none ∧
    c ∉ sys.closed
  comm : ∀ g c r, sys.phases g = .committing c r →
    sys.refreshCh = some c ∧ sys.invocations = 1 ∧ sys.token = none ∧
    c ∉ sys.closed ∧ r = .tok T
  uniq : ∀ g g', WorkerAt sys g → WorkerAt sys g' → g = g'
  closed_lt : ∀ c ∈ sys.closed, c < sys.nextCh
  ch_lt : ∀ c, sys.refreshCh = some c → c < sys.nextCh
  inv_one : sys.invocations = 1 →
    sys.token = some T ∨ ∃ g c r, sys.phases g = .committing c r

/-- The initial state satisfies the invariant. -/
lemma sfInv_init (T : String) : SFInv T initSys := by
  refine ⟨?_, ?_, ?_, ?_, ?_, ?_, ?_, ?_, ?_, ?_⟩ <;>
    simp [initSys, WorkerAt]

/-- Helper: case analysis for a phase read through an update. -/
lemma update_phase_eq {f : Nat → GPhase} {g g' : Nat} {v p : GPhase}
    (h : Function.update f g v g' = p) :
    (g' = g ∧ v = p) ∨ (g' ≠ g ∧ f g' = p) := by
  rcases eq_or_ne g' g with hg | hg
  · subst hg
    rw [Function.update_same] at h
    exact Or.inl ⟨rfl, h⟩
  · rw [Function.update_noteq hg] at h
    exact Or.inr ⟨hg, h⟩

/-- Helper: reading an update away from the updated point. -/
lemma update_phase_ne {f : Nat → GPhase} {g g' : Nat} {v : GPhase}
    (hg : g' ≠ g) : Function.update f g v g' = f g' :=
  Function.update_noteq hg _ _

/-- Helper: classification of a worker phase read through an update. -/
lemma workerAt_update {f : Nat → GPhase} {g x : Nat} {v : GPhase}
    (hw : (∃ c, Function.update f g v x = .refreshing c) ∨
          (∃ c r, Function.update f g v x = .committing c r)) :
    (x = g ∧ ((∃ c, v = .refreshing c) ∨ (∃ c r, v = .committing c r))) ∨
    (x ≠ g ∧ ((∃ c, f x = .refreshing c) ∨ (∃ c r, f x = .committing c r))) := by
  rcases hw with ⟨c, hc⟩ | ⟨c, r, hc⟩ <;>
    rcases update_phase_eq hc with ⟨hg, hv⟩ | ⟨hg, h2⟩
  · exact Or.inl ⟨hg, Or.inl ⟨c, hv⟩⟩
  · exact Or.inr ⟨hg, Or.inl ⟨c, h2⟩⟩
  · exact Or.inl ⟨hg, Or.inr ⟨c, r, hv⟩⟩
  · exact Or.inr ⟨hg, Or.inr ⟨c, r, h2⟩⟩

/-- The invariant is preserved by every step of every goroutine. -/
lemma sfInv_step (T : String) (outcome : Nat → GResult)
    (h1 : outcome 1 = .tok T) (sys : TMSys) (hi : SFInv T sys) (g : Nat) :
    SFInv T (step outcome sys g) := by
  rcases hp : sys.phases g with _ | c | c | ⟨c, r⟩ | r
  · -- start
    rcases ht : sys.token with _ | t
    · rcases hch : sys.refreshCh with _ | c
      · -- become the refresher
        have hstep : step outcome sys g =
            { sys with refreshCh := some sys.nextCh,
                       nextCh := sys.nextCh + 1,
                       phases := Function.update sys.phases g
                         (GPhase.refreshing sys.nextCh) } := by
          simp only [step, hp, ht, hch]
        have h0 : sys.invocations = 0 := by
          by_cases h0 : sys.invocations = 0
          · exact h0
          · have hone : sys.invocations = 1 := by
              have := hi.inv_le; omega
            rcases hi.inv_one hone with htok | ⟨g', c', r', hcomm⟩
            · rw [ht] at htok; exact Option.noConfusion htok
            · have := (hi.comm g' c' r' hcomm).1
              rw [hch] at this; exact Option.noConfusion this
        have hnodone : ∀ g' r', sys.phases g' = .done r' → False := by
          intro g' r' hd
          have := hi.done_inv g' r' hd; omega
        have hnoworker : ∀ g', ¬ WorkerAt sys g' := by
          intro g' hw
          rcases hw with ⟨c', hc'⟩ | ⟨c', r', hc'⟩
          · have := (hi.refr g' c' hc').1; rw [hch] at this
            exact Option.noConfusion this
          · have := (hi.comm g' c' r' hc').1; rw [hch] at this
            exact Option.noConfusion this
        rw [hstep]
        refine ⟨hi.inv_le, ?_, ?_, ?_, ?_, ?_, ?_, ?_, ?_, ?_⟩
        · intro t htk
          rw [ht] at htk
          exact Option.noConfusion htk
        · intro g' r' hd
          rcases update_phase_eq hd with ⟨-, hv⟩ | ⟨-, hd2⟩
          · exact GPhase.noConfusion hv
          · exact absurd hd2 (fun h => hnodone g' r' h)
        · intro g' r' hd
          rcases update_phase_eq hd with ⟨-, hv⟩ | ⟨-, hd2⟩
          · exact GPhase.noConfusion hv
          · exact absurd hd2 (fun h => hnodone g' r' h)
        · intro g' c' hc'
          rcases update_phase_eq hc' with ⟨-, hv⟩ | ⟨-, hc2⟩
          · injection hv with hcc
            subst hcc
            refine ⟨rfl, h0, ht, ?_⟩
            intro hmem
            have := hi.closed_lt _ hmem
            omega
          · exact absurd (Or.inl ⟨c', hc2⟩) (hnoworker g')
        · intro g' c' r' hc'
          rcases update_phase_eq hc' with ⟨-, hv⟩ | ⟨-, hc2⟩
          · exact GPhase.noConfusion hv
          · exact absurd (Or.inr ⟨c', r', hc2⟩) (hnoworker g')
        · intro a b ha hb
          have honly : ∀ x, WorkerAt
              { sys with refreshCh := some sys.nextCh,
                         nextCh := sys.nextCh + 1,
                         phases := Function.update sys.phases g
                           (GPhase.refreshing sys.nextCh) } x → x = g := by
            intro x hx
            rcases workerAt_update hx with ⟨hg, -⟩ | ⟨-, hold⟩
            · exact hg
            · exact absurd hold (hnoworker x)
          rw [honly a ha, honly b hb]
        · intro c' hmem
          show c' < sys.nextCh + 1
          have := hi.closed_lt c' hmem
          omega
        · intro c' hc'
          injection hc' with hcc
          show c' < sys.nextCh + 1
          omega
        · intro hone
          rw [h0] at hone
          exact absurd hone (by omega)
      · -- wait on the in-flight refresh
        have hstep : step outcome sys g =
            { sys with phases :=
                Function.update sys.phases g (GPhase.waiting c) } := by
          simp only [step, hp, ht, hch]
        rw [hstep]
        refine ⟨hi.inv_le, hi.token_ok, ?_, ?_, ?_, ?_, ?_, hi.closed_lt,
          hi.ch_lt, ?_⟩
        · intro g' r' hd
          rcases update_phase_eq hd with ⟨-, hv⟩ | ⟨-, hd2⟩
          · exact GPhase.noConfusion hv
          · exact hi.done_ok g' r' hd2
        · intro g' r' hd
          rcases update_phase_eq hd with ⟨-, hv⟩ | ⟨-, hd2⟩
          · exact GPhase.noConfusion hv
          · exact hi.done_inv g' r' hd2
        · intro g' c' hc'
          rcases update_phase_eq hc' with ⟨-, hv⟩ | ⟨-, hc2⟩
          · exact GPhase.noConfusion hv
          · exact hi.refr g' c' hc2
        · intro g' c' r' hc'
          rcases update_phase_eq hc' with ⟨-, hv⟩ | ⟨-, hc2⟩
          · exact GPhase.noConfusion hv
          · exact hi.comm g' c' r' hc2
        · intro a b ha hb
          have hmap : ∀ x, WorkerAt
              { sys with phases :=
                Function.update sys.phases g (GPhase.waiting c) } x →
              WorkerAt sys x := by
            intro x hx
            rcases workerAt_update hx with ⟨-, hva⟩ | ⟨-, hold⟩
            · rcases hva with ⟨c', hv⟩ | ⟨c', r', hv⟩ <;>
                exact GPhase.noConfusion hv
            · exact hold
          exact hi.uniq a b (hmap a ha) (hmap b hb)
        · intro hone
          rcases hi.inv_one hone with htok | ⟨g', c', r', hcomm⟩
          · exact Or.inl htok
          · refine Or.inr ⟨g', c', r', ?_⟩
            show Function.update sys.phases g (GPhase.waiting c) g' =
              GPhase.committing c' r'
            have hg : g' ≠ g := by
              intro he; rw [he, hp] at hcomm; exact GPhase.noConfusion hcomm
            rw [update_phase_ne hg]
            exact hcomm
    · -- fast path: cached token
      obtain ⟨hTt, hone⟩ := hi.token_ok t ht
      rw [hTt] at ht
      have hstep : step outcome sys g =
          { sys with phases :=
              Function.update sys.phases g (GPhase.done (.tok T)) } := by
        simp only [step, hp, ht]
      rw [hstep]
      refine ⟨hi.inv_le, hi.token_ok, ?_, ?_, ?_, ?_, ?_, hi.closed_lt,
        hi.ch_lt, ?_⟩
      · intro g' r' hd
        rcases update_phase_eq hd with ⟨-, hv⟩ | ⟨-, hd2⟩
        · injection hv with hrr
          exact hrr.symm
        · exact hi.done_ok g' r' hd2
      · intro g' r' hd
        exact hone
      · intro g' c' hc'
        rcases update_phase_eq hc' with ⟨-, hv⟩ | ⟨-, hc2⟩
        · exact GPhase.noConfusion hv
        · exact hi.refr g' c' hc2
      · intro g' c' r' hc'
        rcases update_phase_eq hc' with ⟨-, hv⟩ | ⟨-, hc2⟩
        · exact GPhase.noConfusion hv
        · exact hi.comm g' c' r' hc2
      · intro a b ha hb
        have hmap : ∀ x, WorkerAt
            { sys with phases :=
              Function.update sys.phases g (GPhase.done (.tok T)) } x →
            WorkerAt sys x := by
          intro x hx
          rcases workerAt_update hx with ⟨-, hva⟩ | ⟨-, hold⟩
          · rcases hva with ⟨c', hv⟩ | ⟨c', r', hv⟩ <;>
              exact GPhase.noConfusion hv
          · exact hold
        exact hi.uniq a b (hmap a ha) (hmap b hb)
      · intro _
        exact Or.inl ht
  · -- waiting
    by_cases hc : c ∈ sys.closed
    · have hstep : step outcome sys g =
          { sys with phases := Function.update sys.phases g GPhase.start } := by
        simp only [step, hp, if_pos hc]
      rw [hstep]
      refine ⟨hi.inv_le, hi.token_ok, ?_, ?_, ?_, ?_, ?_, hi.closed_lt,
        hi.ch_lt, ?_⟩
      · intro g' r' hd
        rcases update_phase_eq hd with ⟨-, hv⟩ | ⟨-, hd2⟩
        · exact GPhase.noConfusion hv
        · exact hi.done_ok g' r' hd2
      · intro g' r' hd
        rcases update_phase_eq hd with ⟨-, hv⟩ | ⟨-, hd2⟩
        · exact GPhase.noConfusion hv
        · exact hi.done_inv g' r' hd2
      · intro g' c' hc'
        rcases update_phase_eq hc' with ⟨-, hv⟩ | ⟨-, hc2⟩
        · exact GPhase.noConfusion hv
        · exact hi.refr g' c' hc2
      · intro g' c' r' hc'
        rcases update_phase_eq hc' with ⟨-, hv⟩ | ⟨-, hc2⟩
        · exact GPhase.noConfusion hv
        · exact hi.comm g' c' r' hc2
      · intro a b ha hb
        have hmap : ∀ x, WorkerAt
            { sys with phases := Function.update sys.phases g GPhase.start }
            x → WorkerAt sys x := by
          intro x hx
          rcases workerAt_update hx with ⟨-, hva⟩ | ⟨-, hold⟩
          · rcases hva with ⟨c', hv⟩ | ⟨c', r', hv⟩ <;>
              exact GPhase.noConfusion hv
          · exact hold
        exact hi.uniq a b (hmap a ha) (hmap b hb)
      · intro hone
        rcases hi.inv_one hone with htok | ⟨g', c', r', hcomm⟩
        · exact Or.inl htok
        · refine Or.inr ⟨g', c', r', ?_⟩
          show Function.update sys.phases g GPhase.start g' =
            GPhase.committing c' r'
          have hg : g' ≠ g := by
            intro he; rw [he, hp] at hcomm; exact GPhase.noConfusion hcomm
          rw [update_phase_ne hg]
          exact hcomm
    · have hstep : step outcome sys g = sys := by
        simp only [step, hp, if_neg hc]
      rw [hstep]
      exact hi
  · -- refreshing: invoke the callback
    obtain ⟨hch, h0, htok, hcnc⟩ := hi.refr g c hp
    have hout : outcome (sys.invocations + 1) = .tok T := by
      rw [h0]; exact h1
    have hstep : step outcome sys g =
        { sys with invocations := sys.invocations + 1,
                   phases := Function.update sys.phases g
                     (GPhase.committing c (outcome (sys.invocations + 1))) } := by
      simp only [step, hp]
    rw [hstep]
    refine ⟨?_, ?_, ?_, ?_, ?_, ?_, ?_, hi.closed_lt, hi.ch_lt, ?_⟩
    · show sys.invocations + 1 ≤ 1
      omega
    · intro t htk
      rw [htok] at htk
      exact Option.noConfusion htk
    · intro g' r' hd
      rcases update_phase_eq hd with ⟨-, hv⟩ | ⟨-, hd2⟩
      · exact GPhase.noConfusion hv
      · exact hi.done_ok g' r' hd2
    · intro g' r' hd
      show sys.invocations + 1 = 1
      omega
    · intro g' c' hc'
      rcases update_phase_eq hc' with ⟨-, hv⟩ | ⟨hg, hc2⟩
      · exact GPhase.noConfusion hv
      · exact absurd (hi.uniq g' g (Or.inl ⟨c', hc2⟩) (Or.inl ⟨c, hp⟩)) hg
    · intro g' c' r' hc'
      rcases update_phase_eq hc' with ⟨-, hv⟩ | ⟨hg, hc2⟩
      · injection hv with hcc hrr
        subst hcc
        refine ⟨hch, ?_, htok, hcnc, ?_⟩
        · show sys.invocations + 1 = 1
          omega
        · rw [← hrr, hout]
      · exact absurd (hi.uniq g' g (Or.inr ⟨c', r', hc2⟩) (Or.inl ⟨c, hp⟩)) hg
    · intro a b ha hb
      have honly : ∀ x, WorkerAt
          { sys with invocations := sys.invocations + 1,
                     phases := Function.update sys.phases g
                       (GPhase.committing c (outcome (sys.invocations + 1))) }
          x → x = g := by
        intro x hx
        rcases workerAt_update hx with ⟨hg, -⟩ | ⟨hg, hold⟩
        · exact hg
        · rcases hold with ⟨c', hc'⟩ | ⟨c', r', hc'⟩
          · exact hi.uniq x g (Or.inl ⟨c', hc'⟩) (Or.inl ⟨c, hp⟩)
          · exact hi.uniq x g (Or.inr ⟨c', r', hc'⟩) (Or.inl ⟨c, hp⟩)
      rw [honly a ha, honly b hb]
    · intro _
      refine Or.inr ⟨g, c, outcome (sys.invocations + 1), ?_⟩
      show Function.update sys.phases g
          (GPhase.committing c (outcome (sys.invocations + 1))) g =
        GPhase.committing c (outcome (sys.invocations + 1))
      rw [Function.update_same]
  · -- committing: install the token, close the channel, return
    obtain ⟨hch, hone, htok, hcnc, hrT⟩ := hi.comm g c r hp
    subst hrT
    have hstep : step outcome sys g =
        { sys with token := some T,
                   refreshCh := none,
                   closed := c :: sys.closed,
                   phases := Function.update sys.phases g
                     (GPhase.done (.tok T)) } := by
      simp only [step, hp]
    rw [hstep]
    refine ⟨hi.inv_le, ?_, ?_, ?_, ?_, ?_, ?_, ?_, ?_, ?_⟩
    · intro t htk
      injection htk with htk2
      exact ⟨htk2.symm, hone⟩
    · intro g' r' hd
      rcases update_phase_eq hd with ⟨-, hv⟩ | ⟨-, hd2⟩
      · injection hv with hrr
        exact hrr.symm
      · exact hi.done_ok g' r' hd2
    · intro g' r' hd
      exact hone
    · intro g' c' hc'
      rcases update_phase_eq hc' with ⟨-, hv⟩ | ⟨hg, hc2⟩
      · exact GPhase.noConfusion hv
      · exact absurd
          (hi.uniq g' g (Or.inl ⟨c', hc2⟩) (Or.inr ⟨c, .tok T, hp⟩)) hg
    · intro g' c' r' hc'
      rcases update_phase_eq hc' with ⟨-, hv⟩ | ⟨hg, hc2⟩
      · exact GPhase.noConfusion hv
      · exact absurd
          (hi.uniq g' g (Or.inr ⟨c', r', hc2⟩) (Or.inr ⟨c, .tok T, hp⟩)) hg
    · intro a b ha hb
      exfalso
      have hnone : ∀ x, ¬ WorkerAt
          { sys with token := some T,
                     refreshCh := none,
                     closed := c :: sys.closed,
                     phases := Function.update sys.phases g
                       (GPhase.done (.tok T)) } x := by
        intro x hx
        rcases workerAt_update hx with ⟨-, hva⟩ | ⟨hg, hold⟩
        · rcases hva with ⟨c', hv⟩ | ⟨c', r', hv⟩ <;>
            exact GPhase.noConfusion hv
        · rcases hold with ⟨c', hc'⟩ | ⟨c', r', hc'⟩
          · exact hg
              (hi.uniq x g (Or.inl ⟨c', hc'⟩) (Or.inr ⟨c, .tok T, hp⟩))
          · exact hg
              (hi.uniq x g (Or.inr ⟨c', r', hc'⟩) (Or.inr ⟨c, .tok T, hp⟩))
      exact hnone a ha
    · intro c' hmem
      rcases List.mem_cons.mp hmem with hcc | hmem2
      · rw [hcc]
        exact hi.ch_lt c hch
      · exact hi.closed_lt c' hmem2
    · intro c' hc'
      exact Option.noConfusion hc'
    · intro _
      exact Or.inl rfl
  · -- done: nothing to do
    have hstep : step outcome sys g = sys := by
      simp only [step, hp]
    rw [hstep]
    exact hi

/-- The invariant is preserved by whole schedules. -/
lemma sfInv_run (T : String) (outcome : Nat → GResult)
    (h1 : outcome 1 = .tok T) :
    ∀ (sched : List Nat) (sys : TMSys), SFInv T sys →
      SFInv T (run outcome sys sched) := by
  intro sched
  induction sched with
  | nil => intro sys hs; exact hs
  | cons g rest ih =>
      intro sys hs
      exact ih (step outcome sys g) (sfInv_step T outcome h1 sys hs g)

/-- Claim C2 (amended: the singleflight guarantee holds when the refresh
succeeds; when it fails, woken waiters retry and may start further
refreshes with different outcomes - see the counterexample): if the first
refresh-callback invocation returns token `T`, then under every
interleaving of any number of concurrent `GetToken` callers starting from
an absent/expired token, at most one callback invocation ever happens,
every caller that completes returns exactly `T`, and as soon as any
caller has completed the invocation count is exactly one. -/
theorem getToken_singleflight (T : String) (outcome : Nat → GResult)
    (h1 : outcome 1 = .tok T) (sched : List Nat) :
    (run outcome initSys sched).invocations ≤ 1 ∧
    (∀ g r, (run outcome initSys sched).phases g = .done r → r = .tok T) ∧
    (∀ g r, (run outcome initSys sched).phases g = .done r →
      (run outcome initSys sched).invocations = 1) := by
  have h := sfInv_run T outcome h1 sched initSys (sfInv_init T)
  exact ⟨h.inv_le, h.done_ok, h.done_inv⟩

/-- Witness for `getToken_singleflight`: two concurrent callers, a
refresh that succeeds with token `"T1"`, and a schedule under which the
second caller waits, wakes, and takes the fast path: both finish with
`"T1"` after exactly one callback invocation. -/
theorem getToken_singleflight_witness :
    (run (fun _ => .tok "T1") initSys [0, 1, 0, 0, 1, 1]).invocations ≤ 1 ∧
    (run (fun _ => .tok "T1") initSys [0, 1, 0, 0, 1, 1]).phases 0 =
      .done (.tok "T1") ∧
    (run (fun _ => .tok "T1") initSys [0, 1, 0, 0, 1, 1]).phases 1 =
      .done (.tok "T1") ∧
    (run (fun _ => .tok "T1") initSys [0, 1, 0, 0, 1, 1]).invocations = 1 := by
  have h := getToken_singleflight "T1" (fun _ => .tok "T1") rfl [0, 1, 0, 0, 1, 1]
  exact ⟨h.1, by decide, by decide, h.2.2 0 (.tok "T1") (by decide)⟩
